import Mathlib

/-! QStyleLoader: watch tree, source registry and style updater.

A shallow embedding of `src/qstyle_loader.cpp` and theorems about it.

Conventions of the embedding

* A `QString` is a `String`; a `QDateTime` is an `Option Int` (milliseconds
  since the epoch), `none` being the null `QDateTime`.
* Pointers to owned objects are replaced by the objects themselves; a
  `nullptr` is `none`.
* The calls a guard makes on its `QStyleLoaderGuardObserver` are returned as a
  list of `GuardEvent`, oldest first.
* What the code reads from the outside world (the file system, the clock) is
  an explicit argument.
* A `QMap<QString, V>` is a list of key/value pairs kept in ascending key
  order. A `QSet<QString>` is a duplicate-free list, walked in the order of
  insertion; Qt leaves the order of the walk open, and what is proved about
  the calls made during a walk counts them and does not depend on it.
* A deletion that may run forever takes a `fuel` argument and returns `none`
  when the fuel is spent before it ends.
-/

namespace QStyleLoader

/-! ## Basic Qt values -/

/-- A `QDateTime`: `none` is the null date-time (`isNull()`), `some t` a
point in time in milliseconds. -/
abbrev QDateTime := Option Int

/-- The `QDateTime::isNull` test. -/
def QDateTime.isNull (d : QDateTime) : Bool := d.isNone

/-- What a `QFileInfo f ( path )` reports about a path: `fileExists` is
`f.exists()`, `lastModified` is `f.lastModified()`. -/
structure QFileInfo where
  fileExists : Bool
  lastModified : QDateTime
deriving DecidableEq, Repr

/-- The `QFileInfo::exists` query. -/
def QFileInfo.exists (f : QFileInfo) : Bool := f.fileExists

/-- A call on the `QStyleLoaderGuardObserver` interface (lines 319-330). -/
inductive GuardEvent where
  | added (path : String)
  | removed (path : String)
  | changed (path : String)
deriving DecidableEq, Repr

/-! ## QSet and QMap -/

namespace QSet

/-- The `QSet::insert` operation: an element already present is not added a
second time. -/
def insert (s : List String) (x : String) : List String :=
  if x ∈ s then s else s ++ [x]

/-- The `QSet::contains` test. -/
def contains (s : List String) (x : String) : Bool := decide (x ∈ s)

end QSet

namespace QMap

/-- Key order of a `QMap<QString, V>`: lexicographic on the characters. -/
def keyLt (a b : String) : Bool := decide (a.data < b.data)

/-- The `QMap::contains` test. -/
def contains {V : Type} (m : List (String × V)) (k : String) : Bool :=
  m.any (fun kv => kv.1 == k)

/-- Read access `m[ k ]` / `m.value( k )`; `none` stands for the
default-constructed value (a null pointer) returned for a missing key. -/
def value {V : Type} (m : List (String × V)) (k : String) : Option V :=
  (m.find? (fun kv => kv.1 == k)).map Prod.snd

/-- Creation of the node of a new key at its place in key order. -/
def insertNew {V : Type} : List (String × V) → String → V → List (String × V)
  | [], k, v => [(k, v)]
  | (k', v') :: tl, k, v =>
    if keyLt k k' then (k, v) :: (k', v') :: tl
    else (k', v') :: insertNew tl k v

/-- Assignment of a new value to the node of an existing key. -/
def assign {V : Type} (m : List (String × V)) (k : String) (v : V) : List (String × V) :=
  m.map (fun kv => if kv.1 == k then (kv.1, v) else kv)

/-- Write access `m[ k ] = v`: the node of the key gets the value; when the
map has no such node, one is created first. -/
def insert {V : Type} (m : List (String × V)) (k : String) (v : V) : List (String × V) :=
  if contains m k then assign m k v else insertNew m k v

/-- The `QMap::remove` operation. -/
def remove {V : Type} (m : List (String × V)) (k : String) : List (String × V) :=
  m.filter (fun kv => kv.1 != k)

/-- The `QMap::keys` list, in ascending key order. -/
def keys {V : Type} (m : List (String × V)) : List String := m.map Prod.fst

/-- The `QMap::values` list, in ascending key order. -/
def values {V : Type} (m : List (String × V)) : List V := m.map Prod.snd

/-- The `QMap::isEmpty` test. -/
def isEmpty {V : Type} (m : List (String × V)) : Bool := m.isEmpty

/-- The `QMap::firstKey` accessor. On an empty map Qt has no key to return
(the call is outside its contract); the embedding returns the empty string
there, and `take` of any key leaves an empty map empty. -/
def firstKey {V : Type} : List (String × V) → String
  | [] => ""
  | (k, _) :: _ => k

/-- The `QMap::take` operation: removes the key and returns its value, or
returns the default-constructed value (`none`, a null pointer) and leaves the
map as it is when the key is missing. -/
def take {V : Type} (m : List (String × V)) (k : String) : Option V × List (String × V) :=
  (value m k, remove m k)

end QMap

/-! ## QStyleLoaderFileGuard (lines 359-401) -/

/-- State of a `QStyleLoaderFileGuard`: the watched path and the last known
modification time (`none`: the file is absent). -/
structure QStyleLoaderFileGuard where
  m_path : String
  m_lastEdit : QDateTime
deriving DecidableEq, Repr

/-- Lines 376-379: `return !m_lastEdit.isNull();`. -/
def QStyleLoaderFileGuard.exists (g : QStyleLoaderFileGuard) : Bool := !g.m_lastEdit.isNull

namespace QStyleLoaderFileGuard

/-- Constructor (lines 364-369): `m_lastEdit( QFileInfo( path ).lastModified() )`. -/
def create (info : String → QFileInfo) (path : String) : QStyleLoaderFileGuard :=
  { m_path := path, m_lastEdit := (info path).lastModified }

/-- Lines 354-356 (inherited): `return m_path;`. -/
def path (g : QStyleLoaderFileGuard) : String := g.m_path

/-- Lines 383-400: one poll of the file, `f` being `QFileInfo f ( m_path )`. -/
def timerEvent (g : QStyleLoaderFileGuard) (f : QFileInfo) :
    QStyleLoaderFileGuard × List GuardEvent :=
  if f.exists then
    if g.m_lastEdit.isNull then
      ({ g with m_lastEdit := f.lastModified }, [GuardEvent.added g.m_path])
    else if g.m_lastEdit != f.lastModified then
      ({ g with m_lastEdit := f.lastModified }, [GuardEvent.changed g.m_path])
    else (g, [])
  else if !g.m_lastEdit.isNull then
    ({ g with m_lastEdit := none }, [GuardEvent.removed g.m_path])
  else (g, [])

end QStyleLoaderFileGuard

/-! ## The file system as the code reads it -/

/-- Snapshot of a directory tree as `QDir` lists it: `files` are the names of
the regular files of the directory, `dirs` the names `QDir::Dirs` reports (the
entries `.` and `..` may be among them), each with the snapshot of the
directory found under that name. A snapshot is a finite tree; a directory that
contains itself through a link has none. -/
inductive DirTree where
  | mk (files : List String) (dirs : List (String × DirTree))

/-- The file names of a directory snapshot. -/
def DirTree.files : DirTree → List String
  | .mk fs _ => fs

/-- The directory entries of a directory snapshot. -/
def DirTree.dirs : DirTree → List (String × DirTree)
  | .mk _ ds => ds

/-- The outside world of the loader at one moment.

* `fromNativeSeparators p` is `QDir::fromNativeSeparators( p )`;
* `absoluteFilePath d n` is `QDir( d ).absoluteFilePath( n )`;
* `nameMatch filters n` tells whether `QDir` lists the name `n` under the name
  filters `filters`;
* `fileInfo p` is `QFileInfo( p )`;
* `readAll p` is the text of the file `p`, or `none` when
  `QFile( p ).open( QIODevice::ReadOnly )` fails;
* `dir p` is the snapshot of the directory tree `QDir( p )` lists. -/
structure FileSystem where
  fromNativeSeparators : String → String
  absoluteFilePath : String → String → String
  nameMatch : List String → String → Bool
  fileInfo : String → QFileInfo
  readAll : String → Option String
  dir : String → DirTree

/-- The call `directory.entryInfoList( filters, QDir::Files )` on the directory
`path`, each entry given by its `absoluteFilePath()`. -/
def FileSystem.entryInfoList (fs : FileSystem) (path : String) (filters : List String) :
    List String :=
  ((fs.dir path).files.filter (fun n => fs.nameMatch filters n)).map
    (fun n => fs.absoluteFilePath path n)

/-- The call `directory.entryList( QDir::Dirs )` on the directory `path`: the
names of all its directory entries. -/
def FileSystem.entryList (fs : FileSystem) (path : String) : List String :=
  (fs.dir path).dirs.map Prod.fst

/-! ## QStyleLoaderDirectoryGuard (lines 403-501) -/

/-- State of a `QStyleLoaderDirectoryGuard`: path, filter, and the two child
maps `m_files` and `m_dirs`, which own their values. -/
inductive QStyleLoaderDirectoryGuard where
  | mk (m_path : String) (m_filter : List String)
      (m_files : List (String × QStyleLoaderFileGuard))
      (m_dirs : List (String × QStyleLoaderDirectoryGuard))

namespace QStyleLoaderDirectoryGuard

/-- Field `m_path`. -/
def m_path : QStyleLoaderDirectoryGuard → String
  | .mk p _ _ _ => p

/-- Field `m_filter`. -/
def m_filter : QStyleLoaderDirectoryGuard → List String
  | .mk _ f _ _ => f

/-- Field `m_files`. -/
def m_files : QStyleLoaderDirectoryGuard → List (String × QStyleLoaderFileGuard)
  | .mk _ _ fs _ => fs

/-- Field `m_dirs`. -/
def m_dirs : QStyleLoaderDirectoryGuard → List (String × QStyleLoaderDirectoryGuard)
  | .mk _ _ _ ds => ds

/-- Constructor (lines 410-415): both child maps start empty. -/
def create (path : String) (filter : List String) : QStyleLoaderDirectoryGuard :=
  .mk path filter [] []

/-- Lines 489-491: `for ( auto file: m_files.values() ) if ( file->exists() )
m_observer->removed( file->path() );`. -/
def deactivateFiles : List QStyleLoaderFileGuard → List GuardEvent
  | [] => []
  | file :: rest =>
    if file.exists then GuardEvent.removed file.path :: deactivateFiles rest
    else deactivateFiles rest

mutual
/-- Lines 484-492: `deactivate()`. -/
def deactivate : QStyleLoaderDirectoryGuard → List GuardEvent
  | .mk _ _ files dirs => deactivateDirs dirs ++ deactivateFiles (QMap.values files)
/-- Lines 486-487: `for ( auto dir: m_dirs.values() ) dir->deactivate();`. -/
def deactivateDirs : List (String × QStyleLoaderDirectoryGuard) → List GuardEvent
  | [] => []
  | (_, dir) :: rest => deactivate dir ++ deactivateDirs rest
end

/-- Lines 421-422, the file loop of the destructor:
`while ( m_files.isEmpty() ) delete m_files.take( m_files.firstKey() );`.
Every pass of the loop costs one unit of `fuel`; `none` means the loop is
still running when the fuel is spent. The result is the map the loop leaves
and the paths of the guards it deleted. -/
def teardownFiles : Nat → List (String × QStyleLoaderFileGuard) → List String →
    Option (List (String × QStyleLoaderFileGuard) × List String)
  | 0, _, _ => none
  | fuel + 1, m, deleted =>
    if QMap.isEmpty m then
      match QMap.take m (QMap.firstKey m) with
      | (none, m') => teardownFiles fuel m' deleted
      | (some f, m') => teardownFiles fuel m' (deleted ++ [f.m_path])
    else some (m, deleted)

mutual
/-- Destruction of a directory guard: the destructor body (lines 416-423),
then `~QObject`, which deletes the children the guard still has, that is
those left in the two maps. The result lists the paths of the guards whose
destruction has completed, in order; `none` means the destruction is still
running when the fuel is spent. -/
def destroy : Nat → QStyleLoaderDirectoryGuard → Option (List String)
  | 0, _ => none
  | fuel + 1, .mk path _ files dirs =>
    match teardownDirs fuel dirs [] with
    | none => none
    | some (dirs', deleted₁) =>
      match teardownFiles fuel files [] with
      | none => none
      | some (files', deleted₂) =>
        match destroyAll fuel (QMap.values dirs') with
        | none => none
        | some deleted₃ =>
          some (deleted₁ ++ deleted₂ ++ deleted₃ ++
            (QMap.values files').map QStyleLoaderFileGuard.path ++ [path])
/-- Lines 418-419, the directory loop of the destructor:
`while ( m_dirs.isEmpty() ) delete m_dirs.take( m_dirs.firstKey() );`. -/
def teardownDirs : Nat → List (String × QStyleLoaderDirectoryGuard) → List String →
    Option (List (String × QStyleLoaderDirectoryGuard) × List String)
  | 0, _, _ => none
  | fuel + 1, m, deleted =>
    if QMap.isEmpty m then
      match QMap.take m (QMap.firstKey m) with
      | (none, m') => teardownDirs fuel m' deleted
      | (some d, m') =>
        match destroy fuel d with
        | none => none
        | some del => teardownDirs fuel m' (deleted ++ del)
    else some (m, deleted)
/-- Child deletion of `~QObject` for the directory guards still owned. -/
def destroyAll : Nat → List QStyleLoaderDirectoryGuard → Option (List String)
  | 0, _ => none
  | _ + 1, [] => some []
  | fuel + 1, d :: rest =>
    match destroy fuel d with
    | none => none
    | some del =>
      match destroyAll fuel rest with
      | none => none
      | some dels => some (del ++ dels)
end

/-- Lines 443-446: the set `files` of `updateEntries`, the absolute paths of
the files of the directory that match the filter, in the order the set is
walked. -/
def listedFiles (fs : FileSystem) (g : QStyleLoaderDirectoryGuard) : List String :=
  (fs.entryInfoList (fs.fromNativeSeparators g.m_path) g.m_filter).foldl QSet.insert []

/-- Lines 448-451: the set `dirs` of `updateEntries`:
`for ( auto name: directory.entryList( QDir::Dirs ) ) { if ( name == ".." )
continue; dirs.insert( directory.absoluteFilePath( name ) ); }`. -/
def listedDirs (fs : FileSystem) (g : QStyleLoaderDirectoryGuard) : List String :=
  (fs.entryList (fs.fromNativeSeparators g.m_path)).foldl
    (fun dirs name =>
      if name == ".." then dirs
      else QSet.insert dirs (fs.absoluteFilePath (fs.fromNativeSeparators g.m_path) name))
    []

/-- Body of the loop of lines 453-458. -/
def addFileStep (fs : FileSystem)
    (acc : List (String × QStyleLoaderFileGuard) × List GuardEvent) (file : String) :
    List (String × QStyleLoaderFileGuard) × List GuardEvent :=
  if !QMap.contains acc.1 file then
    (QMap.insert acc.1 file (QStyleLoaderFileGuard.create fs.fileInfo file),
      acc.2 ++ [GuardEvent.added file])
  else acc

/-- Body of the loop of lines 460-468. -/
def removeFileStep (files : List String)
    (acc : List (String × QStyleLoaderFileGuard) × List GuardEvent) (file : String) :
    List (String × QStyleLoaderFileGuard) × List GuardEvent :=
  if !QSet.contains files file then
    (QMap.remove acc.1 file, acc.2 ++ [GuardEvent.removed file])
  else acc

/-- Lines 453-468 of `updateEntries`: the two loops that reconcile the
file-child map with the set `files`; the result is the new `m_files` and the
observer calls made. -/
def updateFileEntries (fs : FileSystem) (g : QStyleLoaderDirectoryGuard) :
    List (String × QStyleLoaderFileGuard) × List GuardEvent :=
  let files := listedFiles fs g
  let afterAdd := files.foldl (addFileStep fs) (g.m_files, [])
  (QMap.keys afterAdd.1).foldl (removeFileStep files) afterAdd

/-- Body of the loop of lines 470-472. -/
def addDirStep (filter : List String) (m : List (String × QStyleLoaderDirectoryGuard))
    (dir : String) : List (String × QStyleLoaderDirectoryGuard) :=
  if !QMap.contains m dir then QMap.insert m dir (create dir filter) else m

/-- Body of the loop of lines 474-481: a child directory that is no longer
listed is taken out of the map, deactivated and deleted. -/
def removeDirStep (fuel : Nat) (dirs : List String)
    (acc : Option (List (String × QStyleLoaderDirectoryGuard) × List GuardEvent))
    (dir : String) : Option (List (String × QStyleLoaderDirectoryGuard) × List GuardEvent) :=
  match acc with
  | none => none
  | some (m, events) =>
    if !QSet.contains dirs dir then
      match QMap.value m dir with
      | none => some (QMap.remove m dir, events)
      | some obj =>
        match destroy fuel obj with
        | none => none
        | some _ => some (QMap.remove m dir, events ++ deactivate obj)
    else some (m, events)

/-- Lines 441-482: `updateEntries()`. The file loops come first, then the
directory loops; `none` means that the deletion of a vanished child directory
is still running when the fuel is spent. -/
def updateEntries (fs : FileSystem) (fuel : Nat) (g : QStyleLoaderDirectoryGuard) :
    Option (QStyleLoaderDirectoryGuard × List GuardEvent) :=
  let dirs := listedDirs fs g
  let fileResult := updateFileEntries fs g
  let afterAdd := dirs.foldl (addDirStep g.m_filter) g.m_dirs
  match (QMap.keys afterAdd).foldl (removeDirStep fuel dirs) (some (afterAdd, fileResult.2)) with
  | none => none
  | some (m_dirs', events) => some (.mk g.m_path g.m_filter fileResult.1 m_dirs', events)

/-- Lines 496-500: the poll of a directory guard is `updateEntries()`. -/
def timerEvent (fs : FileSystem) (fuel : Nat) (g : QStyleLoaderDirectoryGuard) :
    Option (QStyleLoaderDirectoryGuard × List GuardEvent) :=
  updateEntries fs fuel g

mutual
/-- All file children of a watch tree, written from the words of the
specification ("each file child anywhere in the tree, direct or nested at any
depth"): the direct file children, then those of every subdirectory. -/
def allFileChildren : QStyleLoaderDirectoryGuard → List QStyleLoaderFileGuard
  | .mk _ _ files dirs => QMap.values files ++ allFileChildrenOfDirs dirs
/-- The file children found below a list of directory children. -/
def allFileChildrenOfDirs : List (String × QStyleLoaderDirectoryGuard) →
    List QStyleLoaderFileGuard
  | [] => []
  | (_, d) :: rest => allFileChildren d ++ allFileChildrenOfDirs rest
end

/-- The observer calls the specification asks of a deactivation for a list of
file children: one `removed` per child that is present. -/
def removedOfPresent (l : List QStyleLoaderFileGuard) : List GuardEvent :=
  (l.filter (fun f => f.exists)).map (fun f => GuardEvent.removed f.path)

end QStyleLoaderDirectoryGuard

/-! ## QStyleUpdater (lines 27-222) -/

/-- A `QEvent` as `eventFilter` tells them apart. A widget is named by a
number; the `child` of a child event is `qobject_cast<QWidget*>( e->child() )`,
`none` when the child is not a widget. -/
inductive QEvent where
  | ChildAdded (child : Option Nat)
  | ChildRemoved (child : Option Nat)
  | DynamicPropertyChange (propertyName : String)
  | Other

/-- What an updater does to the widgets: the event filter calls, and the three
steps of `reloadWidgetStyle` (lines 178-183). -/
inductive UpdaterAction where
  | installEventFilter (w : Nat)
  | removeEventFilter (w : Nat)
  | unpolish (w : Nat)
  | polish (w : Nat)
  | styleReloaded (w : Nat)
deriving DecidableEq, Repr

/-- State of a `_QStyleUpdater` (lines 30-36). `m_widget` is `none` for a null
root. `m_filter` is `none` for an empty `std::function`; a filter applied to a
widget gives `none` when the call throws. -/
structure _QStyleUpdater where
  m_widget : Option Nat
  m_updateChilds : Bool
  m_allProperties : Bool
  m_properties : List String
  m_filter : Option (Nat → Option Bool)

/-- A `QStyleUpdater` object: its address and its private part `ptr`. -/
structure QStyleUpdater where
  address : Nat
  ptr : _QStyleUpdater

namespace _QStyleUpdater

/-- Position search behind `QByteArray::indexOf`, from position `i` on. -/
def indexOfFrom (needle : List Char) : List Char → Nat → Int
  | [], i => if needle.isEmpty then (i : Int) else -1
  | c :: cs, i =>
    if needle.isPrefixOf (c :: cs) then (i : Int) else indexOfFrom needle cs (i + 1)

/-- The call `s.indexOf( needle )`: the position of the first occurrence of
`needle` in `s`, or `-1`. -/
def indexOf (s needle : String) : Int := indexOfFrom needle.data s.data 0

/-- Lines 124-130: `try { return m_filter( child ); } catch (...) { } return true;`.
Calling an empty `std::function` throws as well. -/
def checkChildWidget (u : _QStyleUpdater) (child : Nat) : Bool :=
  match u.m_filter with
  | none => true
  | some filter =>
    match filter child with
    | some accepted => accepted
    | none => true

/-- Lines 178-183: `reloadWidgetStyle`. -/
def reloadWidgetStyle (widget : Nat) : List UpdaterAction :=
  [UpdaterAction.unpolish widget, UpdaterAction.polish widget,
    UpdaterAction.styleReloaded widget]

/-- Lines 187-221: `eventFilter`; `watcher` is
`qobject_cast<QWidget*>( watcher )`. The result lists what the filter does. -/
def eventFilter (u : _QStyleUpdater) (watcher : Option Nat) (event : QEvent) :
    List UpdaterAction :=
  match watcher with
  | none => []
  | some watcherWidget =>
    match event with
    | QEvent.ChildAdded child =>
      match child with
      | some childWidget => [UpdaterAction.installEventFilter childWidget]
      | none => []
    | QEvent.ChildRemoved child =>
      match child with
      | some childWidget => [UpdaterAction.removeEventFilter childWidget]
      | none => []
    | QEvent.DynamicPropertyChange propertyName =>
      if indexOf propertyName "_q_stylesheet" != 0 then
        if u.m_widget == some watcherWidget
            && (u.m_allProperties || QSet.contains u.m_properties propertyName) then
          reloadWidgetStyle watcherWidget
        else if u.m_updateChilds
            && (u.m_allProperties || QSet.contains u.m_properties propertyName) then
          if checkChildWidget u watcherWidget then reloadWidgetStyle watcherWidget else []
        else []
      else []
    | QEvent.Other => []

end _QStyleUpdater

/-- The inclusion predicate accepts a widget, in the words of the
specification: it is not set, or it raises, or it returns true. -/
def filterAccepts (u : _QStyleUpdater) (N : Nat) : Prop :=
  u.m_filter = none ∨ ∃ f, u.m_filter = some f ∧ (f N = none ∨ f N = some true)

/-- When a property change of the name `a` on the hooked widget `N` reloads
`N`, in the words of the specification. -/
def reloadCondition (u : _QStyleUpdater) (N : Nat) (a : String) : Prop :=
  ¬ "_q_stylesheet".data <+: a.data ∧
  (u.m_allProperties = true ∨ a ∈ u.m_properties) ∧
  (u.m_widget = some N ∨ (u.m_updateChilds = true ∧ filterAccepts u N))

/-! ## The widget tree and the hooks of an updater (lines 79-88, 132-176) -/

mutual
/-- A live widget as the updater reads it: its number, its child widgets, and
the layout `layout()` returns (`none` for a null pointer). -/
inductive QWidget where
  | mk (id : Nat) (children : List QWidget) (layout : Option QLayout)
/-- A `QLayout`: its items, `itemAt( 0 )` to `itemAt( count() - 1 )`. -/
inductive QLayout where
  | mk (items : List QLayoutItem)
/-- A `QLayoutItem`: what `widget()` and `layout()` return. -/
inductive QLayoutItem where
  | mk (widget : Option QWidget) (layout : Option QLayout)
end

/-- The number of a widget. -/
def QWidget.id : QWidget → Nat
  | .mk id _ _ => id

mutual
/-- The call `parent->findChildren<QWidget *>()`: all widgets below the
widget, at any depth, each child followed by what is below it. -/
def QWidget.findChildren : QWidget → List QWidget
  | .mk _ children _ => findChildrenOfList children
/-- The widgets `findChildren` collects for a list of children. -/
def findChildrenOfList : List QWidget → List QWidget
  | [] => []
  | .mk id children layout :: rest =>
    .mk id children layout :: (findChildrenOfList children ++ findChildrenOfList rest)
end

mutual
/-- Lines 132-148: `getAllWidgets( QWidget *parent )` on a non-null parent. -/
def getAllWidgetsOfWidget : QWidget → List Nat
  | .mk id children layout =>
    id :: (getAllWidgetsBelow children ++ getAllWidgetsOfLayoutPointer layout)
/-- Lines 139-141: `for ( auto child: parent->findChildren<QWidget *>() )
result.append( getAllWidgets( child ) );`, the argument being the children of
the parent: the loop meets each child and then, in turn, all that is below it. -/
def getAllWidgetsBelow : List QWidget → List Nat
  | [] => []
  | .mk id children layout :: rest =>
    getAllWidgetsOfWidget (.mk id children layout)
      ++ getAllWidgetsBelow children ++ getAllWidgetsBelow rest
/-- Lines 143-144 and 167-168: `getAllWidgets( layout )` when the pointer is
not null. -/
def getAllWidgetsOfLayoutPointer : Option QLayout → List Nat
  | none => []
  | some layout => getAllWidgetsOfLayout layout
/-- Lines 150-158: `getAllWidgets( QLayout *layout )`. -/
def getAllWidgetsOfLayout : QLayout → List Nat
  | .mk items => getAllWidgetsOfItems items
/-- Lines 154-155: the loop over the items of a layout. -/
def getAllWidgetsOfItems : List QLayoutItem → List Nat
  | [] => []
  | item :: rest => getAllWidgetsOfItem item ++ getAllWidgetsOfItems rest
/-- Lines 160-171: `getAllWidgets( QLayoutItem *item )`. -/
def getAllWidgetsOfItem : QLayoutItem → List Nat
  | .mk widget layout =>
    getAllWidgetsOfWidgetPointer widget ++ getAllWidgetsOfLayoutPointer layout
/-- Lines 136 and 164-165: `getAllWidgets( widget )`, which is empty for a
null pointer. -/
def getAllWidgetsOfWidgetPointer : Option QWidget → List Nat
  | none => []
  | some widget => getAllWidgetsOfWidget widget
end

/-- The conversion `.toSet().toList()`: every element once. -/
def toSetToList (l : List Nat) : List Nat :=
  l.foldl (fun s x => if x ∈ s then s else s ++ [x]) []

/-- Constructor of `_QStyleUpdater` (lines 38-47). -/
def _QStyleUpdater.create : _QStyleUpdater where
  m_widget := none
  m_updateChilds := false
  m_allProperties := false
  m_properties := []
  m_filter := none

/-- Lines 173-176: `getAllWidgets()`; `live p` is the widget the pointer `p`
points to, as it is at the moment of the call. -/
def _QStyleUpdater.getAllWidgets (live : Nat → Option QWidget) (u : _QStyleUpdater) :
    List Nat :=
  toSetToList (getAllWidgetsOfWidgetPointer (u.m_widget.bind live))

/-- An updater together with the widgets that carry it as event filter. -/
structure Attachment where
  updater : _QStyleUpdater
  hooked : List Nat

namespace Attachment

/-- The call `w->installEventFilter( this )`: Qt takes an earlier installation
of the same filter out first, so the widget carries the filter once. -/
def installEventFilter (hooked : List Nat) (w : Nat) : List Nat :=
  if w ∈ hooked then hooked else hooked ++ [w]

/-- The call `w->removeEventFilter( this )`. -/
def removeEventFilter (hooked : List Nat) (w : Nat) : List Nat :=
  hooked.filter (fun x => x != w)

/-- The effect of one action of the updater on the set of hooked widgets. -/
def perform (hooked : List Nat) : UpdaterAction → List Nat
  | .installEventFilter w => installEventFilter hooked w
  | .removeEventFilter w => removeEventFilter hooked w
  | _ => hooked

/-- A new updater: no root, no widget hooked. -/
def create : Attachment where
  updater := _QStyleUpdater.create
  hooked := []

/-- Lines 79-88: `setWidget( widget )` on the live widgets `live`. -/
def setWidget (live : Nat → Option QWidget) (st : Attachment) (widget : Option Nat) :
    Attachment :=
  let unhooked := (st.updater.getAllWidgets live).foldl removeEventFilter st.hooked
  let updater := { st.updater with m_widget := widget }
  { updater := updater
    hooked := (updater.getAllWidgets live).foldl installEventFilter unhooked }

/-- Delivery of an event of the widget `watcher`: Qt calls `eventFilter` when
the widget carries the filter, and not otherwise. -/
def deliver (st : Attachment) (watcher : Nat) (event : QEvent) : Attachment :=
  if watcher ∈ st.hooked then
    { st with hooked := (st.updater.eventFilter (some watcher) event).foldl perform st.hooked }
  else st

end Attachment

/-- Lines 253-256: `widget()`, the root of the updater. -/
def QStyleUpdater.widget (updater : QStyleUpdater) : Option Nat := updater.ptr.m_widget

/-- Constructor `QStyleUpdater( widget, parent )` (lines 224-229): the private
part is made and `setWidget( widget )` is called, which sets `m_widget`. The
event filters that call installs are on the widgets, see
`Attachment.setWidget`. -/
def QStyleUpdater.create (address : Nat) (widget : Option Nat) : QStyleUpdater where
  address := address
  ptr := { _QStyleUpdater.create with m_widget := widget }

/-! ## _QStyleLoader (lines 503-788) -/

/-- The enumeration `Item::Type`. -/
inductive ItemType where
  | File
  | Directory
deriving DecidableEq, Repr

/-- A `QStyleLoader::Item`; its `operator==` compares type and path. -/
structure Item where
  type : ItemType
  path : String
deriving DecidableEq, Repr

/-- A `QStyleLoaderGuard*` held by the loader: a file guard or a directory
guard. -/
inductive QStyleLoaderGuard where
  | file (g : QStyleLoaderFileGuard)
  | dir (g : QStyleLoaderDirectoryGuard)

/-- The statement `delete obj` on a guard; a file guard has an empty
destructor. -/
def QStyleLoaderGuard.destroy (fuel : Nat) : QStyleLoaderGuard → Option (List String)
  | .file g => some [g.m_path]
  | .dir g => QStyleLoaderDirectoryGuard.destroy fuel g

/-- State of a `_QStyleLoader` (lines 507-514), with what it leaves outside
itself: `children` are the guards that are still child objects of the loader
although `m_guards` no longer points to them, `applied` the documents handed
to `qApp->setStyleSheet`, oldest first, and `emitted` the paths of the
`fileStyleChanged` signals, oldest first. -/
structure _QStyleLoader where
  m_autoReload : Bool
  m_hasReload : Bool
  m_lastReloaded : QDateTime
  m_items : List Item
  m_filter : List String
  m_updaters : List QStyleUpdater
  m_guards : List (String × QStyleLoaderGuard)
  children : List QStyleLoaderGuard
  applied : List String
  emitted : List String

namespace _QStyleLoader

/-- Constructor (lines 517-524). -/
def create : _QStyleLoader where
  m_autoReload := true
  m_hasReload := false
  m_lastReloaded := none
  m_items := []
  m_filter := []
  m_updaters := []
  m_guards := []
  children := []
  applied := []
  emitted := []

/-- Lines 531-534: `count()`. -/
def count (st : _QStyleLoader) : Nat := st.m_items.length

/-- Lines 551-558: `contains( path )`. -/
def contains (st : _QStyleLoader) (path : String) : Bool :=
  st.m_items.any (fun item => item.path == path)

/-- Lines 559-566: `containsFile( path )`. -/
def containsFile (st : _QStyleLoader) (path : String) : Bool :=
  st.m_items.any (fun item => item.type == ItemType.File && item.path == path)

/-- Lines 567-574: `containsDirectory( path )`. -/
def containsDirectory (st : _QStyleLoader) (path : String) : Bool :=
  st.m_items.any (fun item => item.type == ItemType.Directory && item.path == path)

/-- Lines 727-739: `loadFile`; a file that cannot be opened gives the empty
text. -/
def loadFile (fs : FileSystem) (path : String) : String :=
  match fs.readAll (fs.fromNativeSeparators path) with
  | some data => data
  | none => ""

/-- Lines 746-750: the file loop of `loadDirectory`, over the entries of
`directory.entryInfoList( m_filter, QDir::Filter::Files )`. -/
def loadDirectoryFiles (fs : FileSystem) : List String → List String → List String
  | [], result => result
  | f :: rest, result =>
    let data := loadFile fs f
    if !data.isEmpty then loadDirectoryFiles fs rest (result ++ [data])
    else loadDirectoryFiles fs rest result

mutual
/-- Lines 741-760: `loadDirectory( path )`, the second argument being the
snapshot of `QDir directory ( path )`. -/
def loadDirectory (fs : FileSystem) (m_filter : List String) : String → DirTree → String
  | path, .mk files dirs =>
    let result := loadDirectoryFiles fs
      (((files.filter (fun n => fs.nameMatch m_filter n)).map
        (fun n => fs.absoluteFilePath path n))) []
    String.intercalate "\n" (loadDirectoryDirs fs m_filter path dirs result)
/-- Lines 752-757: the directory loop of `loadDirectory`, over the names of
`directory.entryList( m_filter, QDir::Filter::Dirs )`: a directory entry is
listed when its name matches the filter. -/
def loadDirectoryDirs (fs : FileSystem) (m_filter : List String) :
    String → List (String × DirTree) → List String → List String
  | _, [], result => result
  | path, (name, sub) :: rest, result =>
    if !fs.nameMatch m_filter name then loadDirectoryDirs fs m_filter path rest result
    else if name == ".." || name == "." then loadDirectoryDirs fs m_filter path rest result
    else
      let data := loadDirectory fs m_filter (fs.absoluteFilePath path name) sub
      if !data.isEmpty then loadDirectoryDirs fs m_filter path rest (result ++ [data])
      else loadDirectoryDirs fs m_filter path rest result
end

/-- Lines 720-725: `loadItem`. -/
def loadItem (fs : FileSystem) (m_filter : List String) (item : Item) : String :=
  if item.type = ItemType.File then loadFile fs item.path
  else loadDirectory fs m_filter item.path (fs.dir item.path)

/-- Lines 686-690: the loop of `reloadAllStyle` that collects the texts. -/
def loadItems (fs : FileSystem) (m_filter : List String) : List Item → List String → List String
  | [], items => items
  | item :: rest, items =>
    let data := loadItem fs m_filter item
    if !data.isEmpty then loadItems fs m_filter rest (items ++ [data])
    else loadItems fs m_filter rest items

/-- Lines 679-693: `reloadAllStyle()` at the time `now`. -/
def reloadAllStyle (fs : FileSystem) (now : Int) (st : _QStyleLoader) : _QStyleLoader :=
  { st with
    m_hasReload := false
    m_lastReloaded := some now
    applied := st.applied ++ [String.intercalate "\n" (loadItems fs st.m_filter st.m_items [])] }

/-- The call `d.msecsTo( now )` on a non-null date-time. -/
def msecsTo (d : QDateTime) (now : Int) : Int :=
  match d with
  | some t => now - t
  | none => 0

/-- Lines 701-711: `reloadAllStylePrivate()` at the time `now`. -/
def reloadAllStylePrivate (fs : FileSystem) (now : Int) (st : _QStyleLoader) : _QStyleLoader :=
  if st.m_autoReload then
    if st.m_lastReloaded.isNull || decide (msecsTo st.m_lastReloaded now > 2000) then
      reloadAllStyle fs now st
    else { st with m_hasReload := true }
  else st

/-- Lines 610-620: `addFile( path )`. A guard that `m_guards[ path ]` pointed
to before the assignment stays a child object of the loader. -/
def addFile (fs : FileSystem) (now : Int) (st : _QStyleLoader) (path : String) : _QStyleLoader :=
  if !st.containsFile path then
    reloadAllStylePrivate fs now
      { st with
        m_items := st.m_items ++ [⟨ItemType.File, path⟩]
        m_guards := QMap.insert st.m_guards path
          (QStyleLoaderGuard.file
            (QStyleLoaderFileGuard.create fs.fileInfo (fs.fromNativeSeparators path)))
        children := st.children ++ (QMap.value st.m_guards path).toList }
  else st

/-- Lines 621-632: `addDirectory( path )`. -/
def addDirectory (fs : FileSystem) (now : Int) (st : _QStyleLoader) (path : String) :
    _QStyleLoader :=
  if !st.containsDirectory path then
    reloadAllStylePrivate fs now
      { st with
        m_items := st.m_items ++ [⟨ItemType.Directory, path⟩]
        m_guards := QMap.insert st.m_guards path
          (QStyleLoaderGuard.dir
            (QStyleLoaderDirectoryGuard.create (fs.fromNativeSeparators path) st.m_filter))
        children := st.children ++ (QMap.value st.m_guards path).toList }
  else st

/-- Lines 602-609: `add( type, path )`. -/
def add (fs : FileSystem) (now : Int) (st : _QStyleLoader) (type : ItemType) (path : String) :
    _QStyleLoader :=
  if type = ItemType.File then addFile fs now st path else addDirectory fs now st path

/-- Lines 580-587: `containsUpdater( widget )`. -/
def containsUpdater (st : _QStyleLoader) (widget : Option Nat) : Bool :=
  st.m_updaters.any (fun updater => updater.widget == widget)

/-- Lines 588-595: `updater( widget )`, `none` for the null pointer. -/
def updater (st : _QStyleLoader) (widget : Option Nat) : Option QStyleUpdater :=
  st.m_updaters.find? (fun updater => updater.widget == widget)

/-- Lines 666-677: `insertUpdater( widget )`; `address` is where `new` puts
the updater if one is made. The result is the updater returned and the loader
afterwards. -/
def insertUpdater (address : Nat) (st : _QStyleLoader) (widget : Option Nat) :
    QStyleUpdater × _QStyleLoader :=
  match st.m_updaters.find? (fun updater => updater.widget == widget) with
  | some updater => (updater, st)
  | none =>
    let updater := QStyleUpdater.create address widget
    (updater, { st with m_updaters := st.m_updaters ++ [updater] })

/-- Lines 650-654: `addUpdater( widget )`. -/
def addUpdater (address : Nat) (st : _QStyleLoader) (widget : Option Nat) :
    QStyleUpdater × _QStyleLoader :=
  insertUpdater address st widget

/-- Lines 642-647: `for ( auto &item: m_items ) if ( item.path == path ) {
m_items.removeOne( item ); break; }`. -/
def removeItem (m_items : List Item) (path : String) : List Item :=
  match m_items.find? (fun item => item.path == path) with
  | some item => m_items.erase item
  | none => m_items

/-- Lines 633-648: `remove( path )`; `none` means that the deletion of the
guard is still running when the fuel is spent. No call on the observer is
made here or in the destructors, so `emitted` and `applied` stay as they are. -/
def remove (fuel : Nat) (st : _QStyleLoader) (path : String) : Option _QStyleLoader :=
  if QMap.contains st.m_guards path then
    match QMap.value st.m_guards path with
    | none => some { st with m_guards := QMap.remove st.m_guards path,
                             m_items := removeItem st.m_items path }
    | some obj =>
      match obj.destroy fuel with
      | none => none
      | some _ => some { st with m_guards := QMap.remove st.m_guards path,
                                 m_items := removeItem st.m_items path }
  else some { st with m_items := removeItem st.m_items path }

/-- Lines 764-778: `added`, `removed` and `changed` all do the same: emit
`fileStyleChanged( path )`, then `reloadAllStylePrivate()`. -/
def notify (fs : FileSystem) (now : Int) (st : _QStyleLoader) (path : String) : _QStyleLoader :=
  reloadAllStylePrivate fs now { st with emitted := st.emitted ++ [path] }

/-- Lines 764-778: delivery of one observer call. -/
def observe (fs : FileSystem) (now : Int) (st : _QStyleLoader) : GuardEvent → _QStyleLoader
  | .added path => notify fs now st path
  | .removed path => notify fs now st path
  | .changed path => notify fs now st path

/-- Lines 782-786: `timerEvent`, the 2 s timer of the loader. -/
def timerEvent (fs : FileSystem) (now : Int) (st : _QStyleLoader) : _QStyleLoader :=
  reloadAllStylePrivate fs now st

end _QStyleLoader

/-! ## Runs of the loader -/

/-- The loader states that sequences of `addFile`, `addDirectory` and `remove`
calls reach from a new loader; the file system and the clock may differ from
call to call. -/
inductive Reachable : _QStyleLoader → Prop where
  | create : Reachable _QStyleLoader.create
  | addFile (fs : FileSystem) (now : Int) (path : String) {st : _QStyleLoader} :
      Reachable st → Reachable (st.addFile fs now path)
  | addDirectory (fs : FileSystem) (now : Int) (path : String) {st : _QStyleLoader} :
      Reachable st → Reachable (st.addDirectory fs now path)
  | remove (fuel : Nat) (path : String) {st st' : _QStyleLoader} :
      Reachable st → st.remove fuel path = some st' → Reachable st'

/-- Something that arrives at the loader: an observer call, made at the time
`now` when the file system has become `fs`, or a tick of the 2 s timer. -/
inductive Arrival where
  | event (e : GuardEvent) (fs : FileSystem) (now : Int)
  | tick (now : Int)

/-- The time of an arrival. -/
def Arrival.time : Arrival → Int
  | .event _ _ now => now
  | .tick now => now

/-- The loader and the file system after one arrival: an observer call is
handled by `added`/`removed`/`changed` on the file system it reports, a tick by
`timerEvent` on the file system as the last call left it. -/
def arrive (w : _QStyleLoader × FileSystem) : Arrival → _QStyleLoader × FileSystem
  | .event e fs now => (w.1.observe fs now e, fs)
  | .tick now => (w.1.timerEvent w.2 now, w.2)

/-- The loader and the file system after a sequence of arrivals. -/
def run (w : _QStyleLoader × FileSystem) (arrivals : List Arrival) :
    _QStyleLoader × FileSystem :=
  arrivals.foldl arrive w

/-- The file system as a sequence of arrivals leaves it: the one reported by
the last observer call, or the initial one when there was no call. -/
def fileSystemAfter (fs : FileSystem) (arrivals : List Arrival) : FileSystem :=
  arrivals.foldl
    (fun current a =>
      match a with
      | .event _ fs' _ => fs'
      | .tick _ => current)
    fs

/-! ## The document, in the words of the specification -/

/-- The newline-join of the non-empty texts of a list. -/
def joinNonEmpty (texts : List String) : String :=
  String.intercalate "\n" (texts.filter (fun t => !t.isEmpty))

/-- The text of a file: its contents, the empty string when it cannot be
opened. -/
def fileText (fs : FileSystem) (path : String) : String :=
  (fs.readAll (fs.fromNativeSeparators path)).getD ""

mutual
/-- The text of a directory: the newline-join of the non-empty texts of its
matching files followed by those of its matching subdirectories. -/
def directoryText (fs : FileSystem) (filter : List String) : String → DirTree → String
  | path, .mk files dirs =>
    joinNonEmpty
      (((files.filter (fun n => fs.nameMatch filter n)).map
          (fun n => fileText fs (fs.absoluteFilePath path n)))
        ++ subdirectoryTexts fs filter path dirs)
/-- The texts of the matching subdirectories of a directory; the entries `.`
and `..` are not subdirectories. -/
def subdirectoryTexts (fs : FileSystem) (filter : List String) :
    String → List (String × DirTree) → List String
  | _, [] => []
  | path, (name, sub) :: rest =>
    if fs.nameMatch filter name ∧ name ≠ "." ∧ name ≠ ".." then
      directoryText fs filter (fs.absoluteFilePath path name) sub
        :: subdirectoryTexts fs filter path rest
    else subdirectoryTexts fs filter path rest
end

/-- The text of a source. -/
def sourceText (fs : FileSystem) (filter : List String) (item : Item) : String :=
  match item.type with
  | ItemType.File => fileText fs item.path
  | ItemType.Directory => directoryText fs filter item.path (fs.dir item.path)

/-- The document of a source sequence: the newline-join, in order, of the
non-empty texts of the sources. -/
def document (fs : FileSystem) (filter : List String) (items : List Item) : String :=
  joinNonEmpty (items.map (sourceText fs filter))

/-! ## Sample inputs -/

/-- A file system whose directory `d` holds the files `b.qss` and `c.qss` and
lists the directory entries `.` and `..`; every file was last modified at
time 5 and holds its own path as text. -/
def sampleFs : FileSystem where
  fromNativeSeparators := fun p => p
  absoluteFilePath := fun d n => d ++ "/" ++ n
  nameMatch := fun _ _ => true
  fileInfo := fun _ => ⟨true, some 5⟩
  readAll := fun p => some p
  dir := fun p =>
    if p = "d" then .mk ["b.qss", "c.qss"] [(".", .mk [] []), ("..", .mk [] [])]
    else .mk [] []

/-- A directory guard on `d` that watches the files `a.qss` and `b.qss`. -/
def sampleGuard : QStyleLoaderDirectoryGuard :=
  .mk "d" []
    [("d/a.qss", ⟨"d/a.qss", some 1⟩), ("d/b.qss", ⟨"d/b.qss", some 1⟩)] []

/-- The directory guard on `d` as its first poll on the sample file system
leaves it. -/
def polledGuard : QStyleLoaderDirectoryGuard :=
  .mk "d" []
    [("d/b.qss", ⟨"d/b.qss", some 5⟩), ("d/c.qss", ⟨"d/c.qss", some 5⟩)]
    [("d/.", .mk "d/." [] [] [])]

/-- The loader after `addFile("x")` and `addDirectory("x")`. -/
def sharedPathLoader : _QStyleLoader :=
  (_QStyleLoader.create.addFile sampleFs 0 "x").addDirectory sampleFs 0 "x"

/-- The loader after `addDirectory("d")` and the first poll of the guard of
`d`. -/
def removalLoader : _QStyleLoader :=
  { _QStyleLoader.create.addDirectory sampleFs 0 "d" with
    m_guards := [("d", QStyleLoaderGuard.dir polledGuard)] }

/-- The loader after `addFile("a.qss")` at time 0: it has reloaded at time 0
and no reload is pending. -/
def settledLoader : _QStyleLoader :=
  _QStyleLoader.create.addFile sampleFs 0 "a.qss"

/-- The settled loader after a `changed` call at 500 ms: a reload is pending. -/
def pendingLoader : _QStyleLoader :=
  settledLoader.observe sampleFs 500 (GuardEvent.changed "a.qss")

/-- A file system in which no file can be opened. -/
def unreadableFs : FileSystem :=
  { sampleFs with readAll := fun _ => none }

/-- The sample file system with every file holding the text `A`. -/
def fsA : FileSystem :=
  { sampleFs with readAll := fun _ => some "A" }

/-- The sample file system with every file holding the text `B`. -/
def fsB : FileSystem :=
  { sampleFs with readAll := fun _ => some "B" }

/-- Two `changed` calls 100 ms apart, five seconds after the last reload, then
two ticks of the 2 s timer. -/
def burstArrivals : List Arrival :=
  [Arrival.event (GuardEvent.changed "a.qss") fsA 5000,
    Arrival.event (GuardEvent.changed "a.qss") fsB 5100,
    Arrival.tick 6000, Arrival.tick 8000]

/-- An updater on the root widget 0 that watches the property `theme` and does
not refresh child widgets. -/
def themeUpdater : _QStyleUpdater where
  m_widget := some 0
  m_updateChilds := false
  m_allProperties := false
  m_properties := ["theme"]
  m_filter := none

/-- The widget 2, which has no child. -/
def leafWidget : QWidget := .mk 2 [] none

/-- The widget 1 with its child 2. -/
def branchWidget : QWidget := .mk 1 [leafWidget] none

/-- The live widgets when the root 0 has no child and the widget 1, with its
child 2, stands apart. -/
def liveApart : Nat → Option QWidget := fun p =>
  if p = 0 then some (.mk 0 [] none)
  else if p = 1 then some branchWidget
  else if p = 2 then some leafWidget
  else none

/-- The live widgets when the widget 1, with its child 2, is a child of the
root 0. -/
def liveJoined : Nat → Option QWidget := fun p =>
  if p = 0 then some (.mk 0 [branchWidget] none)
  else if p = 1 then some branchWidget
  else if p = 2 then some leafWidget
  else none

/-! # Theorems -/

/-! ## QSet and QMap facts -/

namespace QSet

theorem mem_insert (s : List String) (x p : String) :
    p ∈ insert s x ↔ p ∈ s ∨ p = x := by
  unfold insert
  split_ifs with h
  · constructor
    · intro hp; exact Or.inl hp
    · rintro (hp | rfl)
      · exact hp
      · exact h
  · simp

theorem nodup_insert (s : List String) (x : String) (hs : s.Nodup) :
    (insert s x).Nodup := by
  unfold insert
  split_ifs with h
  · exact hs
  · exact List.Nodup.append hs (List.nodup_singleton x) (by simpa using h)

theorem foldl_insert_spec (l : List String) :
    ∀ s : List String, s.Nodup →
      (l.foldl insert s).Nodup ∧ ∀ p, p ∈ l.foldl insert s ↔ p ∈ s ∨ p ∈ l := by
  induction l with
  | nil => intro s hs; simp [hs]
  | cons x rest ih =>
    intro s hs
    obtain ⟨h1, h2⟩ := ih (insert s x) (nodup_insert s x hs)
    refine ⟨h1, fun p => ?_⟩
    rw [List.foldl_cons, h2, mem_insert]
    simp only [List.mem_cons]
    tauto

theorem qset_contains_iff (s : List String) (x : String) : contains s x = true ↔ x ∈ s := by
  simp [contains]

end QSet

namespace QMap

theorem contains_iff {V : Type} (m : List (String × V)) (k : String) :
    contains m k = true ↔ k ∈ keys m := by
  simp only [contains, keys, List.any_eq_true, List.mem_map, beq_iff_eq]

theorem keys_assign {V : Type} (m : List (String × V)) (k : String) (v : V) :
    keys (assign m k v) = keys m := by
  induction m with
  | nil => rfl
  | cons kv tl ih =>
    simp only [assign, keys, List.map_cons, List.cons.injEq] at ih ⊢
    refine ⟨?_, ih⟩
    split_ifs <;> rfl

theorem keys_insertNew_perm {V : Type} (m : List (String × V)) (k : String) (v : V) :
    (keys (insertNew m k v)).Perm (k :: keys m) := by
  induction m with
  | nil => simp [insertNew, keys]
  | cons kv tl ih =>
    obtain ⟨k', v'⟩ := kv
    unfold insertNew
    split_ifs with h
    · simp [keys]
    · simp only [keys, List.map_cons] at ih ⊢
      exact (List.Perm.cons k' ih).trans (List.Perm.swap k k' _)

theorem mem_keys_insert {V : Type} (m : List (String × V)) (k : String) (v : V) (p : String) :
    p ∈ keys (insert m k v) ↔ p = k ∨ p ∈ keys m := by
  unfold insert
  split_ifs with h
  · rw [keys_assign]
    have hk : k ∈ keys m := (contains_iff m k).1 h
    constructor
    · intro hp; exact Or.inr hp
    · rintro (rfl | hp)
      · exact hk
      · exact hp
  · rw [(keys_insertNew_perm m k v).mem_iff]
    simp

theorem nodup_keys_insert {V : Type} (m : List (String × V)) (k : String) (v : V)
    (hm : (keys m).Nodup) : (keys (insert m k v)).Nodup := by
  unfold insert
  split_ifs with h
  · rw [keys_assign]; exact hm
  · rw [(keys_insertNew_perm m k v).nodup_iff]
    have hk : k ∉ keys m := fun hmem => h ((contains_iff m k).2 hmem)
    exact List.nodup_cons.2 ⟨hk, hm⟩

theorem length_insert {V : Type} (m : List (String × V)) (k : String) (v : V) :
    (insert m k v).length = if contains m k then m.length else m.length + 1 := by
  unfold insert
  split_ifs with h
  · simp [assign]
  · have := (keys_insertNew_perm m k v).length_eq
    simpa [keys] using this

theorem keys_remove {V : Type} (m : List (String × V)) (k : String) :
    keys (remove m k) = (keys m).filter (fun p => p != k) := by
  induction m with
  | nil => rfl
  | cons kv tl ih =>
    obtain ⟨k', v'⟩ := kv
    simp only [remove, keys, List.map_cons] at ih ⊢
    by_cases h : k' = k
    · simp [List.filter_cons, h, ih]
    · simp [List.filter_cons, h, ih]

theorem value_cons {V : Type} (k' : String) (v' : V) (tl : List (String × V)) (k : String) :
    value ((k', v') :: tl) k = if k' = k then some v' else value tl k := by
  by_cases h : k' = k
  · simp [value, h]
  · have hne : (k' == k) = false := by simpa using h
    simp [value, List.find?_cons, hne, h]

theorem value_insertNew {V : Type} (m : List (String × V)) (k : String) (v : V)
    (hk : k ∉ keys m) : value (insertNew m k v) k = some v := by
  induction m with
  | nil => simp [insertNew, value]
  | cons kv tl ih =>
    obtain ⟨k', v'⟩ := kv
    simp only [keys, List.map_cons, List.mem_cons, not_or] at hk
    have hne : ¬ k' = k := fun e => hk.1 e.symm
    unfold insertNew
    split_ifs with h
    · rw [value_cons]; simp
    · rw [value_cons, if_neg hne]
      exact ih hk.2

theorem value_assign {V : Type} (m : List (String × V)) (k : String) (v : V)
    (hk : k ∈ keys m) : value (assign m k v) k = some v := by
  induction m with
  | nil => simp [keys] at hk
  | cons kv tl ih =>
    obtain ⟨k', v'⟩ := kv
    by_cases h : k' = k
    · subst h
      simp [assign, value_cons]
    · have hk' : k ∈ keys tl := by
        simp only [keys, List.map_cons, List.mem_cons] at hk
        rcases hk with e | e
        · exact absurd e.symm h
        · exact e
      have ih' := ih hk'
      have hne : (k' == k) = false := by simpa using h
      simp only [assign, List.map_cons, hne] at ih' ⊢
      simp only [Bool.false_eq_true, if_false]
      rw [value_cons, if_neg h]
      exact ih'

theorem value_insert {V : Type} (m : List (String × V)) (k : String) (v : V) :
    value (insert m k v) k = some v := by
  unfold insert
  split_ifs with h
  · exact value_assign m k v ((contains_iff m k).1 h)
  · exact value_insertNew m k v (fun hmem => h ((contains_iff m k).2 hmem))

end QMap

/-! ## File guard -/

/-- C1. One poll of a file guard makes at most one observer call and follows
the transition table: absent and not found, nothing; absent and found, the
time stamp is recorded and `added(path)` is emitted; present and found with the
same time stamp, nothing; present and found with another time stamp,
`changed(path)` with the new stamp recorded; present and not found,
`removed(path)` and the state becomes absent. -/
theorem file_poll_transition_table (path : String) (t : Int) (seen : QDateTime) :
    (∀ (g : QStyleLoaderFileGuard) (f : QFileInfo), (g.timerEvent f).2.length ≤ 1) ∧
    (QStyleLoaderFileGuard.mk path none).timerEvent ⟨false, seen⟩
      = (⟨path, none⟩, []) ∧
    (QStyleLoaderFileGuard.mk path none).timerEvent ⟨true, seen⟩
      = (⟨path, seen⟩, [GuardEvent.added path]) ∧
    (QStyleLoaderFileGuard.mk path (some t)).timerEvent ⟨true, some t⟩
      = (⟨path, some t⟩, []) ∧
    (seen ≠ some t →
      (QStyleLoaderFileGuard.mk path (some t)).timerEvent ⟨true, seen⟩
        = (⟨path, seen⟩, [GuardEvent.changed path])) ∧
    (QStyleLoaderFileGuard.mk path (some t)).timerEvent ⟨false, seen⟩
      = (⟨path, none⟩, [GuardEvent.removed path]) := by
  refine ⟨?_, ?_, ?_, ?_, ?_, ?_⟩
  · intro g f
    unfold QStyleLoaderFileGuard.timerEvent
    split_ifs <;> simp
  · simp [QStyleLoaderFileGuard.timerEvent, QFileInfo.exists, QDateTime.isNull]
  · simp [QStyleLoaderFileGuard.timerEvent, QFileInfo.exists, QDateTime.isNull]
  · simp [QStyleLoaderFileGuard.timerEvent, QFileInfo.exists, QDateTime.isNull]
  · intro h
    have h' : (some t : QDateTime) ≠ seen := fun e => h e.symm
    simp [QStyleLoaderFileGuard.timerEvent, QFileInfo.exists, QDateTime.isNull, h']
  · simp [QStyleLoaderFileGuard.timerEvent, QFileInfo.exists, QDateTime.isNull]

/-- Witness for C1: a file last seen at time 1 and found with time 2 reports
`changed`. -/
theorem file_poll_transition_table_witness :
    (QStyleLoaderFileGuard.mk "a.qss" (some 1)).timerEvent ⟨true, some 2⟩
      = (⟨"a.qss", some 2⟩, [GuardEvent.changed "a.qss"]) :=
  (file_poll_transition_table "a.qss" 1 (some 2)).2.2.2.2.1 (by decide)

/-! ## Reconciliation of the file children -/

namespace QStyleLoaderDirectoryGuard

theorem listedFiles_spec (fs : FileSystem) (g : QStyleLoaderDirectoryGuard) :
    (listedFiles fs g).Nodup ∧
    ∀ p, p ∈ listedFiles fs g ↔
      p ∈ fs.entryInfoList (fs.fromNativeSeparators g.m_path) g.m_filter := by
  have h := QSet.foldl_insert_spec
    (fs.entryInfoList (fs.fromNativeSeparators g.m_path) g.m_filter) [] List.nodup_nil
  refine ⟨h.1, fun p => ?_⟩
  have := h.2 p
  simpa [listedFiles] using this

theorem addLoop_spec (fs : FileSystem) (files : List String) (hnd : files.Nodup) :
    ∀ acc : List (String × QStyleLoaderFileGuard) × List GuardEvent,
      (files.foldl (addFileStep fs) acc).2
          = acc.2 ++ (files.filter (fun f => !QMap.contains acc.1 f)).map GuardEvent.added ∧
      (∀ p, p ∈ QMap.keys (files.foldl (addFileStep fs) acc).1
          ↔ p ∈ QMap.keys acc.1 ∨ p ∈ files) ∧
      ((QMap.keys acc.1).Nodup → (QMap.keys (files.foldl (addFileStep fs) acc).1).Nodup) := by
  induction files with
  | nil => intro acc; simp
  | cons f rest ih =>
    intro acc
    obtain ⟨hf, hrest⟩ := List.nodup_cons.1 hnd
    rw [List.foldl_cons]
    by_cases hc : QMap.contains acc.1 f = true
    · have hstep : addFileStep fs acc f = acc := by simp [addFileStep, hc]
      rw [hstep]
      obtain ⟨ih1, ih2, ih3⟩ := ih hrest acc
      refine ⟨?_, ?_, ih3⟩
      · rw [ih1]; simp [List.filter_cons, hc]
      · intro p
        rw [ih2 p]
        have hk : f ∈ QMap.keys acc.1 := (QMap.contains_iff _ _).1 hc
        simp only [List.mem_cons]
        constructor
        · rintro (h | h)
          · exact Or.inl h
          · exact Or.inr (Or.inr h)
        · rintro (h | rfl | h)
          · exact Or.inl h
          · exact Or.inl hk
          · exact Or.inr h
    · have hc' : QMap.contains acc.1 f = false := by simpa using hc
      have hstep : addFileStep fs acc f
          = (QMap.insert acc.1 f (QStyleLoaderFileGuard.create fs.fileInfo f),
              acc.2 ++ [GuardEvent.added f]) := by
        simp [addFileStep, hc']
      rw [hstep]
      obtain ⟨ih1, ih2, ih3⟩ := ih hrest
        (QMap.insert acc.1 f (QStyleLoaderFileGuard.create fs.fileInfo f),
          acc.2 ++ [GuardEvent.added f])
      dsimp only at ih1 ih2 ih3
      refine ⟨?_, ?_, ?_⟩
      · rw [ih1]
        have hfilter : rest.filter (fun x => !QMap.contains
              (QMap.insert acc.1 f (QStyleLoaderFileGuard.create fs.fileInfo f)) x)
            = rest.filter (fun x => !QMap.contains acc.1 x) := by
          apply List.filter_congr
          intro x hx
          have hxf : x ≠ f := fun e => hf (e ▸ hx)
          have h1 := QMap.contains_iff
            (QMap.insert acc.1 f (QStyleLoaderFileGuard.create fs.fileInfo f)) x
          have h2 := QMap.contains_iff acc.1 x
          have h3 := QMap.mem_keys_insert acc.1 f
            (QStyleLoaderFileGuard.create fs.fileInfo f) x
          have hiff : (QMap.contains
              (QMap.insert acc.1 f (QStyleLoaderFileGuard.create fs.fileInfo f)) x = true)
              ↔ (QMap.contains acc.1 x = true) := by
            rw [h1, h2, h3]
            constructor
            · rintro (h | h)
              · exact absurd h hxf
              · exact h
            · intro h; exact Or.inr h
          have hbool : QMap.contains
              (QMap.insert acc.1 f (QStyleLoaderFileGuard.create fs.fileInfo f)) x
              = QMap.contains acc.1 x := Bool.eq_iff_iff.2 hiff
          rw [hbool]
        rw [hfilter]
        simp [List.filter_cons, hc']
      · intro p
        rw [ih2 p, QMap.mem_keys_insert]
        simp only [List.mem_cons]
        tauto
      · intro hk
        exact ih3 (QMap.nodup_keys_insert _ _ _ hk)

theorem removeLoop_spec (files : List String) (ks : List String) :
    ∀ acc : List (String × QStyleLoaderFileGuard) × List GuardEvent,
      (ks.foldl (removeFileStep files) acc).2
          = acc.2 ++ (ks.filter (fun k => !QSet.contains files k)).map GuardEvent.removed ∧
      (∀ p, p ∈ QMap.keys (ks.foldl (removeFileStep files) acc).1
          ↔ p ∈ QMap.keys acc.1 ∧ ¬ (p ∈ ks ∧ p ∉ files)) ∧
      ((QMap.keys acc.1).Nodup → (QMap.keys (ks.foldl (removeFileStep files) acc).1).Nodup) := by
  induction ks with
  | nil => intro acc; simp
  | cons k rest ih =>
    intro acc
    rw [List.foldl_cons]
    by_cases hc : k ∈ files
    · have hstep : removeFileStep files acc k = acc := by
        simp [removeFileStep, QSet.contains, hc]
      rw [hstep]
      obtain ⟨ih1, ih2, ih3⟩ := ih acc
      refine ⟨?_, ?_, ih3⟩
      · rw [ih1]; simp [List.filter_cons, QSet.contains, hc]
      · intro p
        rw [ih2 p]
        simp only [List.mem_cons]
        constructor
        · rintro ⟨h1, h2⟩
          refine ⟨h1, ?_⟩
          rintro ⟨h3 | h3, h4⟩
          · exact h4 (h3 ▸ hc)
          · exact h2 ⟨h3, h4⟩
        · rintro ⟨h1, h2⟩
          exact ⟨h1, fun h => h2 ⟨Or.inr h.1, h.2⟩⟩
    · have hstep : removeFileStep files acc k
          = (QMap.remove acc.1 k, acc.2 ++ [GuardEvent.removed k]) := by
        simp [removeFileStep, QSet.contains, hc]
      rw [hstep]
      obtain ⟨ih1, ih2, ih3⟩ := ih (QMap.remove acc.1 k, acc.2 ++ [GuardEvent.removed k])
      dsimp only at ih1 ih2 ih3
      refine ⟨?_, ?_, ?_⟩
      · rw [ih1]; simp [List.filter_cons, QSet.contains, hc]
      · intro p
        rw [ih2 p, QMap.keys_remove]
        simp only [List.mem_filter, List.mem_cons, bne_iff_ne, ne_eq]
        constructor
        · rintro ⟨⟨h1, h2⟩, h3⟩
          refine ⟨h1, ?_⟩
          rintro ⟨h4 | h4, h5⟩
          · exact h2 h4
          · exact h3 ⟨h4, h5⟩
        · rintro ⟨h1, h2⟩
          refine ⟨⟨h1, ?_⟩, fun h => h2 ⟨Or.inr h.1, h.2⟩⟩
          intro e
          exact h2 ⟨Or.inl e, e ▸ hc⟩
      · intro hk
        apply ih3
        rw [QMap.keys_remove]
        exact hk.filter _

theorem count_filter_of_nodup (l : List String) (q : String → Bool) (p : String)
    (hl : l.Nodup) :
    (l.filter q).count p = if p ∈ l ∧ q p = true then 1 else 0 := by
  rw [List.count_eq_of_nodup (hl.filter q)]
  simp [List.mem_filter]

theorem count_added_map_added (l : List String) (p : String) :
    (l.map GuardEvent.added).count (GuardEvent.added p) = l.count p :=
  List.count_map_of_injective l GuardEvent.added (fun _ _ h => by injection h) p

theorem count_removed_map_removed (l : List String) (p : String) :
    (l.map GuardEvent.removed).count (GuardEvent.removed p) = l.count p :=
  List.count_map_of_injective l GuardEvent.removed (fun _ _ h => by injection h) p

theorem count_added_map_removed (l : List String) (p : String) :
    (l.map GuardEvent.removed).count (GuardEvent.added p) = 0 := by
  rw [List.count_eq_zero]; simp

theorem count_removed_map_added (l : List String) (p : String) :
    (l.map GuardEvent.added).count (GuardEvent.removed p) = 0 := by
  rw [List.count_eq_zero]; simp

theorem updateFileEntries_events (fs : FileSystem) (g : QStyleLoaderDirectoryGuard) :
    (updateFileEntries fs g).2
      = ((listedFiles fs g).filter (fun f => !QMap.contains g.m_files f)).map GuardEvent.added
        ++ ((QMap.keys ((listedFiles fs g).foldl (addFileStep fs) (g.m_files, [])).1).filter
            (fun k => !QSet.contains (listedFiles fs g) k)).map GuardEvent.removed := by
  have h1 := (addLoop_spec fs (listedFiles fs g) (listedFiles_spec fs g).1 (g.m_files, [])).1
  have h2 := (removeLoop_spec (listedFiles fs g)
    (QMap.keys ((listedFiles fs g).foldl (addFileStep fs) (g.m_files, [])).1)
    ((listedFiles fs g).foldl (addFileStep fs) (g.m_files, []))).1
  simp only [updateFileEntries]
  rw [h2, h1]
  simp

theorem removeDirLoop_none (fuel : Nat) (dirs ks : List String) :
    ks.foldl (removeDirStep fuel dirs) none = none := by
  induction ks with
  | nil => rfl
  | cons k rest ih => simpa [List.foldl_cons, removeDirStep] using ih

theorem removeDirLoop_events (fuel : Nat) (dirs ks : List String) :
    ∀ (m : List (String × QStyleLoaderDirectoryGuard)) (ev : List GuardEvent)
      (r : List (String × QStyleLoaderDirectoryGuard) × List GuardEvent),
      ks.foldl (removeDirStep fuel dirs) (some (m, ev)) = some r → ev <+: r.2 := by
  induction ks with
  | nil =>
    intro m ev r h
    simp only [List.foldl_nil, Option.some.injEq] at h
    subst h
    exact List.prefix_refl _
  | cons k rest ih =>
    intro m ev r h
    rw [List.foldl_cons] at h
    rcases hstep : removeDirStep fuel dirs (some (m, ev)) k with _ | ⟨m', ev'⟩
    · rw [hstep, removeDirLoop_none] at h
      exact absurd h (by simp)
    · rw [hstep] at h
      have hpre : ev <+: ev' := by
        unfold removeDirStep at hstep
        simp only at hstep
        split_ifs at hstep with hc
        · split at hstep
          · simp only [Option.some.injEq, Prod.mk.injEq] at hstep
            rw [← hstep.2]
          · split at hstep
            · exact absurd hstep (by simp)
            · simp only [Option.some.injEq, Prod.mk.injEq] at hstep
              rw [← hstep.2]
              exact List.prefix_append _ _
        · simp only [Option.some.injEq, Prod.mk.injEq] at hstep
          rw [← hstep.2]
      exact hpre.trans (ih m' ev' r h)

end QStyleLoaderDirectoryGuard

/-- C2. For every directory guard (its file-child map having each key once, as
any `QMap` has) and every listing of its directory, the file loops of one
reconciliation pass leave a file-child map whose key set is exactly the set of
listed files, and make exactly one `added(p)` call for each listed `p` that was
not a key before, exactly one `removed(p)` call for each previous key that is
not listed, and no other call; a pass that completes keeps that map and starts
its calls with these. -/
theorem reconcile_file_children (fs : FileSystem) (g : QStyleLoaderDirectoryGuard)
    (hkeys : (QMap.keys g.m_files).Nodup) :
    (∀ p, p ∈ QMap.keys (QStyleLoaderDirectoryGuard.updateFileEntries fs g).1
        ↔ p ∈ fs.entryInfoList (fs.fromNativeSeparators g.m_path) g.m_filter) ∧
    (QMap.keys (QStyleLoaderDirectoryGuard.updateFileEntries fs g).1).Nodup ∧
    (∀ p, (QStyleLoaderDirectoryGuard.updateFileEntries fs g).2.count (GuardEvent.added p)
        = if p ∈ fs.entryInfoList (fs.fromNativeSeparators g.m_path) g.m_filter
            ∧ p ∉ QMap.keys g.m_files then 1 else 0) ∧
    (∀ p, (QStyleLoaderDirectoryGuard.updateFileEntries fs g).2.count (GuardEvent.removed p)
        = if p ∈ QMap.keys g.m_files
            ∧ p ∉ fs.entryInfoList (fs.fromNativeSeparators g.m_path) g.m_filter
          then 1 else 0) ∧
    (∀ p, GuardEvent.changed p ∉ (QStyleLoaderDirectoryGuard.updateFileEntries fs g).2) ∧
    (∀ fuel r, QStyleLoaderDirectoryGuard.updateEntries fs fuel g = some r →
        r.1.m_files = (QStyleLoaderDirectoryGuard.updateFileEntries fs g).1 ∧
        (QStyleLoaderDirectoryGuard.updateFileEntries fs g).2 <+: r.2) := by
  obtain ⟨hFnd, hFmem⟩ := QStyleLoaderDirectoryGuard.listedFiles_spec fs g
  obtain ⟨_, a2, a3⟩ := QStyleLoaderDirectoryGuard.addLoop_spec fs
    (QStyleLoaderDirectoryGuard.listedFiles fs g) hFnd (g.m_files, [])
  obtain ⟨_, b2, b3⟩ := QStyleLoaderDirectoryGuard.removeLoop_spec
    (QStyleLoaderDirectoryGuard.listedFiles fs g)
    (QMap.keys ((QStyleLoaderDirectoryGuard.listedFiles fs g).foldl
      (QStyleLoaderDirectoryGuard.addFileStep fs) (g.m_files, [])).1)
    ((QStyleLoaderDirectoryGuard.listedFiles fs g).foldl
      (QStyleLoaderDirectoryGuard.addFileStep fs) (g.m_files, []))
  have hmid := a3 hkeys
  have hev := QStyleLoaderDirectoryGuard.updateFileEntries_events fs g
  refine ⟨?_, ?_, ?_, ?_, ?_, ?_⟩
  · intro p
    rw [← hFmem p]
    simp only [QStyleLoaderDirectoryGuard.updateFileEntries]
    rw [b2 p, a2 p]
    tauto
  · simp only [QStyleLoaderDirectoryGuard.updateFileEntries]
    exact b3 hmid
  · intro p
    rw [hev, List.count_append, QStyleLoaderDirectoryGuard.count_added_map_added,
      QStyleLoaderDirectoryGuard.count_added_map_removed,
      QStyleLoaderDirectoryGuard.count_filter_of_nodup _ _ _ hFnd]
    have hc := QMap.contains_iff g.m_files p
    have hF := hFmem p
    by_cases h1 : p ∈ QStyleLoaderDirectoryGuard.listedFiles fs g <;>
      by_cases h2 : p ∈ QMap.keys g.m_files
    · simp [h1, h2, hF.1 h1, hc.2 h2]
    · have h3 : QMap.contains g.m_files p = false := by
        simpa using fun h => h2 (hc.1 h)
      simp [h1, h2, hF.1 h1, h3]
    · have h1' : p ∉ fs.entryInfoList (fs.fromNativeSeparators g.m_path) g.m_filter :=
        fun h => h1 (hF.2 h)
      simp [h1, h2, h1']
    · have h1' : p ∉ fs.entryInfoList (fs.fromNativeSeparators g.m_path) g.m_filter :=
        fun h => h1 (hF.2 h)
      simp [h1, h2, h1']
  · intro p
    rw [hev, List.count_append, QStyleLoaderDirectoryGuard.count_removed_map_added,
      QStyleLoaderDirectoryGuard.count_removed_map_removed,
      QStyleLoaderDirectoryGuard.count_filter_of_nodup _ _ _ hmid]
    have hF := hFmem p
    have hA := a2 p
    dsimp only at hA
    by_cases h1 : p ∈ QStyleLoaderDirectoryGuard.listedFiles fs g <;>
      by_cases h2 : p ∈ QMap.keys g.m_files
    · simp [h2, hF.1 h1, QSet.contains, h1]
    · simp [h2, QSet.contains, h1]
    · have h1' : p ∉ fs.entryInfoList (fs.fromNativeSeparators g.m_path) g.m_filter :=
        fun h => h1 (hF.2 h)
      simp [h2, h1', QSet.contains, h1, hA.2 (Or.inl h2)]
    · have hmem : p ∉ QMap.keys ((QStyleLoaderDirectoryGuard.listedFiles fs g).foldl
          (QStyleLoaderDirectoryGuard.addFileStep fs) (g.m_files, [])).1 := by
        intro h
        rcases hA.1 h with h | h
        · exact h2 h
        · exact h1 h
      simp [h2, hmem]
  · intro p
    rw [hev]
    simp
  · intro fuel r h
    unfold QStyleLoaderDirectoryGuard.updateEntries at h
    simp only at h
    split at h
    · exact absurd h (by simp)
    · rename_i m_dirs' events hfold
      simp only [Option.some.injEq] at h
      subst h
      refine ⟨rfl, ?_⟩
      exact QStyleLoaderDirectoryGuard.removeDirLoop_events _ _ _ _ _ _ hfold

/-- Witness for C2, the example of the specification: the guard watches
`a.qss` and `b.qss`, the directory lists `b.qss` and `c.qss`; afterwards the
children are `b.qss` and `c.qss` and the calls are `added(c.qss)` and
`removed(a.qss)`. -/
theorem reconcile_file_children_witness :
    (QMap.keys sampleGuard.m_files).Nodup ∧
    QMap.keys (QStyleLoaderDirectoryGuard.updateFileEntries sampleFs sampleGuard).1
      = ["d/b.qss", "d/c.qss"] ∧
    (QStyleLoaderDirectoryGuard.updateFileEntries sampleFs sampleGuard).2
      = [GuardEvent.added "d/c.qss", GuardEvent.removed "d/a.qss"] ∧
    (∀ p, p ∈ QMap.keys (QStyleLoaderDirectoryGuard.updateFileEntries sampleFs sampleGuard).1
        ↔ p ∈ sampleFs.entryInfoList (sampleFs.fromNativeSeparators sampleGuard.m_path)
            sampleGuard.m_filter) :=
  ⟨by decide, by decide, by decide, (reconcile_file_children sampleFs sampleGuard (by decide)).1⟩

/-! ## Deactivation of a watch tree -/

namespace QStyleLoaderDirectoryGuard

theorem removedOfPresent_append (a b : List QStyleLoaderFileGuard) :
    removedOfPresent (a ++ b) = removedOfPresent a ++ removedOfPresent b := by
  simp [removedOfPresent]

theorem deactivateFiles_eq (l : List QStyleLoaderFileGuard) :
    deactivateFiles l = removedOfPresent l := by
  induction l with
  | nil => rfl
  | cons f rest ih =>
    by_cases h : f.exists = true
    · simp [deactivateFiles, removedOfPresent, h] at ih ⊢
      exact ih
    · simp [deactivateFiles, removedOfPresent, h] at ih ⊢
      exact ih

mutual
theorem deactivate_perm : ∀ g : QStyleLoaderDirectoryGuard,
    (deactivate g).Perm (removedOfPresent (allFileChildren g))
  | .mk _ _ files dirs => by
    rw [deactivate, allFileChildren, removedOfPresent_append, deactivateFiles_eq]
    exact List.perm_append_comm.trans
      (List.Perm.append_left _ (deactivateDirs_perm dirs))
theorem deactivateDirs_perm : ∀ ds : List (String × QStyleLoaderDirectoryGuard),
    (deactivateDirs ds).Perm (removedOfPresent (allFileChildrenOfDirs ds))
  | [] => by simp [deactivateDirs, allFileChildrenOfDirs, removedOfPresent]
  | (_, d) :: rest => by
    rw [deactivateDirs, allFileChildrenOfDirs, removedOfPresent_append]
    exact List.Perm.append (deactivate_perm d) (deactivateDirs_perm rest)
end

theorem deactivateDirs_eq_join (ds : List (String × QStyleLoaderDirectoryGuard)) :
    deactivateDirs ds = ((QMap.values ds).map deactivate).flatten := by
  induction ds with
  | nil => simp [deactivateDirs, QMap.values]
  | cons kd rest ih =>
    obtain ⟨k, d⟩ := kd
    simp [deactivateDirs, QMap.values] at ih ⊢
    rw [ih]

end QStyleLoaderDirectoryGuard

/-- C3. For every watch tree, `deactivate()` emits, up to order, exactly one
`removed(p)` for each file child anywhere in the tree whose last known state is
present and nothing for an absent one; and its calls are those of the
subdirectories, one subdirectory after the other, followed by those for the
direct file children. -/
theorem deactivate_reports_present_files (g : QStyleLoaderDirectoryGuard) :
    (g.deactivate).Perm
      (((QStyleLoaderDirectoryGuard.allFileChildren g).filter (fun f => f.exists)).map
        (fun f => GuardEvent.removed f.path)) ∧
    g.deactivate
      = ((QMap.values g.m_dirs).map QStyleLoaderDirectoryGuard.deactivate).flatten
        ++ (((QMap.values g.m_files).filter (fun f => f.exists)).map
            (fun f => GuardEvent.removed f.path)) := by
  constructor
  · exact QStyleLoaderDirectoryGuard.deactivate_perm g
  · cases g with
    | mk p f files dirs =>
      rw [QStyleLoaderDirectoryGuard.deactivate,
        QStyleLoaderDirectoryGuard.deactivateDirs_eq_join,
        QStyleLoaderDirectoryGuard.deactivateFiles_eq]
      rfl

/-! ## Registration of sources -/

namespace QMap

theorem value_eq_none_of_not_contains {V : Type} (m : List (String × V)) (k : String)
    (h : contains m k = false) : value m k = none := by
  induction m with
  | nil => rfl
  | cons kv tl ih =>
    obtain ⟨k', v'⟩ := kv
    simp only [contains, List.any_cons, Bool.or_eq_false_iff, beq_eq_false_iff_ne, ne_eq] at h
    rw [value_cons, if_neg h.1]
    exact ih h.2

theorem value_isSome_of_contains {V : Type} (m : List (String × V)) (k : String)
    (h : contains m k = true) : ∃ v, value m k = some v := by
  induction m with
  | nil => simp [contains] at h
  | cons kv tl ih =>
    obtain ⟨k', v'⟩ := kv
    rw [value_cons]
    by_cases hk : k' = k
    · exact ⟨v', by simp [hk]⟩
    · simp only [contains, List.any_cons, Bool.or_eq_true, beq_iff_eq] at h
      rcases h with h | h
      · exact absurd h hk
      · obtain ⟨v, hv⟩ := ih h
        exact ⟨v, by simp [hk, hv]⟩

theorem length_insert_add_orphan {V : Type} (m : List (String × V)) (k : String) (v : V) :
    (insert m k v).length + (value m k).toList.length = m.length + 1 := by
  rw [length_insert]
  rcases h : contains m k with _ | _
  · rw [value_eq_none_of_not_contains m k h]; simp
  · obtain ⟨w, hw⟩ := value_isSome_of_contains m k h
    rw [hw]; simp

end QMap

namespace _QStyleLoader

@[simp] theorem reloadAllStylePrivate_m_items (fs : FileSystem) (now : Int) (st : _QStyleLoader) :
    (reloadAllStylePrivate fs now st).m_items = st.m_items := by
  unfold reloadAllStylePrivate reloadAllStyle
  split_ifs <;> rfl

@[simp] theorem reloadAllStylePrivate_m_guards (fs : FileSystem) (now : Int)
    (st : _QStyleLoader) : (reloadAllStylePrivate fs now st).m_guards = st.m_guards := by
  unfold reloadAllStylePrivate reloadAllStyle
  split_ifs <;> rfl

@[simp] theorem reloadAllStylePrivate_children (fs : FileSystem) (now : Int)
    (st : _QStyleLoader) : (reloadAllStylePrivate fs now st).children = st.children := by
  unfold reloadAllStylePrivate reloadAllStyle
  split_ifs <;> rfl

@[simp] theorem reloadAllStylePrivate_m_filter (fs : FileSystem) (now : Int)
    (st : _QStyleLoader) : (reloadAllStylePrivate fs now st).m_filter = st.m_filter := by
  unfold reloadAllStylePrivate reloadAllStyle
  split_ifs <;> rfl

@[simp] theorem reloadAllStylePrivate_m_autoReload (fs : FileSystem) (now : Int)
    (st : _QStyleLoader) : (reloadAllStylePrivate fs now st).m_autoReload = st.m_autoReload := by
  unfold reloadAllStylePrivate reloadAllStyle
  split_ifs <;> rfl

theorem containsFile_iff (st : _QStyleLoader) (path : String) :
    st.containsFile path = true ↔ (⟨ItemType.File, path⟩ : Item) ∈ st.m_items := by
  simp only [containsFile, List.any_eq_true, Bool.and_eq_true, beq_iff_eq]
  constructor
  · rintro ⟨item, hmem, htype, hpath⟩
    obtain ⟨t, p⟩ := item
    simp only at htype hpath
    subst htype; subst hpath
    exact hmem
  · intro h
    exact ⟨_, h, rfl, rfl⟩

theorem containsDirectory_iff (st : _QStyleLoader) (path : String) :
    st.containsDirectory path = true ↔ (⟨ItemType.Directory, path⟩ : Item) ∈ st.m_items := by
  simp only [containsDirectory, List.any_eq_true, Bool.and_eq_true, beq_iff_eq]
  constructor
  · rintro ⟨item, hmem, htype, hpath⟩
    obtain ⟨t, p⟩ := item
    simp only at htype hpath
    subst htype; subst hpath
    exact hmem
  · intro h
    exact ⟨_, h, rfl, rfl⟩

theorem containsFile_addFile (fs : FileSystem) (now : Int) (st : _QStyleLoader)
    (path : String) : (st.addFile fs now path).containsFile path = true := by
  by_cases h : st.containsFile path = true
  · simp [addFile, h]
  · have h' : st.containsFile path = false := by simpa using h
    rw [containsFile_iff]
    simp [addFile, h']

theorem containsDirectory_addDirectory (fs : FileSystem) (now : Int) (st : _QStyleLoader)
    (path : String) : (st.addDirectory fs now path).containsDirectory path = true := by
  by_cases h : st.containsDirectory path = true
  · simp [addDirectory, h]
  · have h' : st.containsDirectory path = false := by simpa using h
    rw [containsDirectory_iff]
    simp [addDirectory, h']

end _QStyleLoader

/-- C4. A second `addFile(path)` (likewise a second `addDirectory(path)`),
whatever the file system and the clock are by then, leaves the loader exactly
as the first call left it. A first call made when no item of that kind and path
exists appends exactly that one item at the end of the sequence, makes
`m_guards` point to a new watch for the path, and adds exactly one watch to
those the loader owns. -/
theorem add_twice_same_as_once (fs₁ fs₂ : FileSystem) (t₁ t₂ : Int) (st : _QStyleLoader)
    (path : String) :
    (st.addFile fs₁ t₁ path).addFile fs₂ t₂ path = st.addFile fs₁ t₁ path ∧
    (st.addDirectory fs₁ t₁ path).addDirectory fs₂ t₂ path = st.addDirectory fs₁ t₁ path ∧
    (st.containsFile path = false →
      (st.addFile fs₁ t₁ path).m_items = st.m_items ++ [⟨ItemType.File, path⟩] ∧
      (st.addFile fs₁ t₁ path).count = st.count + 1 ∧
      QMap.value (st.addFile fs₁ t₁ path).m_guards path
        = some (QStyleLoaderGuard.file
            (QStyleLoaderFileGuard.create fs₁.fileInfo (fs₁.fromNativeSeparators path))) ∧
      (st.addFile fs₁ t₁ path).m_guards.length + (st.addFile fs₁ t₁ path).children.length
        = st.m_guards.length + st.children.length + 1) ∧
    (st.containsDirectory path = false →
      (st.addDirectory fs₁ t₁ path).m_items = st.m_items ++ [⟨ItemType.Directory, path⟩] ∧
      (st.addDirectory fs₁ t₁ path).count = st.count + 1 ∧
      QMap.value (st.addDirectory fs₁ t₁ path).m_guards path
        = some (QStyleLoaderGuard.dir
            (QStyleLoaderDirectoryGuard.create (fs₁.fromNativeSeparators path) st.m_filter)) ∧
      (st.addDirectory fs₁ t₁ path).m_guards.length
          + (st.addDirectory fs₁ t₁ path).children.length
        = st.m_guards.length + st.children.length + 1) := by
  refine ⟨?_, ?_, ?_, ?_⟩
  · have h := _QStyleLoader.containsFile_addFile fs₁ t₁ st path
    generalize st.addFile fs₁ t₁ path = st₁ at h
    simp [_QStyleLoader.addFile, h]
  · have h := _QStyleLoader.containsDirectory_addDirectory fs₁ t₁ st path
    generalize st.addDirectory fs₁ t₁ path = st₁ at h
    simp [_QStyleLoader.addDirectory, h]
  · intro h
    have hlen := QMap.length_insert_add_orphan st.m_guards path
      (QStyleLoaderGuard.file
        (QStyleLoaderFileGuard.create fs₁.fileInfo (fs₁.fromNativeSeparators path)))
    refine ⟨?_, ?_, ?_, ?_⟩
    · simp [_QStyleLoader.addFile, h]
    · simp [_QStyleLoader.addFile, _QStyleLoader.count, h]
    · simp [_QStyleLoader.addFile, h, QMap.value_insert]
    · simp only [_QStyleLoader.addFile, h, Bool.not_false, if_true,
        _QStyleLoader.reloadAllStylePrivate_m_guards,
        _QStyleLoader.reloadAllStylePrivate_children, List.length_append]
      omega
  · intro h
    have hlen := QMap.length_insert_add_orphan st.m_guards path
      (QStyleLoaderGuard.dir
        (QStyleLoaderDirectoryGuard.create (fs₁.fromNativeSeparators path) st.m_filter))
    refine ⟨?_, ?_, ?_, ?_⟩
    · simp [_QStyleLoader.addDirectory, h]
    · simp [_QStyleLoader.addDirectory, _QStyleLoader.count, h]
    · simp [_QStyleLoader.addDirectory, h, QMap.value_insert]
    · simp only [_QStyleLoader.addDirectory, h, Bool.not_false, if_true,
        _QStyleLoader.reloadAllStylePrivate_m_guards,
        _QStyleLoader.reloadAllStylePrivate_children, List.length_append]
      omega

/-- Witness for C4: the first `addFile` on a new loader. -/
theorem add_twice_same_as_once_witness :
    (_QStyleLoader.create.addFile sampleFs 0 "a.qss").m_items
      = _QStyleLoader.create.m_items ++ [⟨ItemType.File, "a.qss"⟩] :=
  ((add_twice_same_as_once sampleFs sampleFs 0 1 _QStyleLoader.create "a.qss").2.2.1
    (by decide)).1

/-! ## Uniqueness of sources -/

namespace _QStyleLoader

theorem removeItem_sublist (items : List Item) (path : String) :
    (removeItem items path).Sublist items := by
  unfold removeItem
  split
  · exact List.erase_sublist _ _
  · exact List.Sublist.refl _

theorem remove_some (fuel : Nat) (st st' : _QStyleLoader) (path : String)
    (h : st.remove fuel path = some st') :
    st'.m_items = removeItem st.m_items path ∧
    (st'.m_guards = QMap.remove st.m_guards path ∨ st'.m_guards = st.m_guards) ∧
    st'.emitted = st.emitted ∧ st'.applied = st.applied := by
  unfold remove at h
  split_ifs at h with hc
  · split at h
    · simp only [Option.some.injEq] at h
      subst h
      exact ⟨rfl, Or.inl rfl, rfl, rfl⟩
    · split at h
      · exact absurd h (by simp)
      · simp only [Option.some.injEq] at h
        subst h
        exact ⟨rfl, Or.inl rfl, rfl, rfl⟩
  · simp only [Option.some.injEq] at h
    subst h
    exact ⟨rfl, Or.inr rfl, rfl, rfl⟩

theorem reachable_invariant {st : _QStyleLoader} (h : Reachable st) :
    st.m_items.Nodup ∧ (QMap.keys st.m_guards).Nodup := by
  induction h with
  | create => simp [create, QMap.keys]
  | @addFile fs now path st₀ _ ih =>
    by_cases hc : st₀.containsFile path = true
    · simpa [addFile, hc] using ih
    · have hc' : st₀.containsFile path = false := by simpa using hc
      have hnot : (⟨ItemType.File, path⟩ : Item) ∉ st₀.m_items :=
        fun hmem => hc ((containsFile_iff st₀ path).2 hmem)
      constructor
      · simp only [addFile, hc', Bool.not_false, if_true, reloadAllStylePrivate_m_items]
        exact List.Nodup.append ih.1 (List.nodup_singleton _) (by simpa using hnot)
      · simp only [addFile, hc', Bool.not_false, if_true, reloadAllStylePrivate_m_guards]
        exact QMap.nodup_keys_insert _ _ _ ih.2
  | @addDirectory fs now path st₀ _ ih =>
    by_cases hc : st₀.containsDirectory path = true
    · simpa [addDirectory, hc] using ih
    · have hc' : st₀.containsDirectory path = false := by simpa using hc
      have hnot : (⟨ItemType.Directory, path⟩ : Item) ∉ st₀.m_items :=
        fun hmem => hc ((containsDirectory_iff st₀ path).2 hmem)
      constructor
      · simp only [addDirectory, hc', Bool.not_false, if_true, reloadAllStylePrivate_m_items]
        exact List.Nodup.append ih.1 (List.nodup_singleton _) (by simpa using hnot)
      · simp only [addDirectory, hc', Bool.not_false, if_true,
          reloadAllStylePrivate_m_guards]
        exact QMap.nodup_keys_insert _ _ _ ih.2
  | remove fuel path _ hrem ih =>
    obtain ⟨h1, h2, _, _⟩ := remove_some _ _ _ _ hrem
    constructor
    · rw [h1]
      exact ih.1.sublist (removeItem_sublist _ _)
    · rcases h2 with h2 | h2
      · rw [h2, QMap.keys_remove]
        exact ih.2.filter _
      · rw [h2]; exact ih.2

theorem sharedPathLoader_reachable : Reachable sharedPathLoader :=
  Reachable.addDirectory sampleFs 0 "x" (Reachable.addFile sampleFs 0 "x" Reachable.create)

end _QStyleLoader

/-- C5, counterexample. After `addFile("x")` and `addDirectory("x")` on a new
loader the sequence holds two sources with the path `x`, and `m_guards` has one
entry for the two. -/
theorem same_path_registered_twice :
    Reachable sharedPathLoader ∧
    sharedPathLoader.m_items = [⟨ItemType.File, "x"⟩, ⟨ItemType.Directory, "x"⟩] ∧
    ¬ (sharedPathLoader.m_items.map Item.path).Nodup ∧
    QMap.keys sharedPathLoader.m_guards = ["x"] :=
  ⟨_QStyleLoader.sharedPathLoader_reachable, by decide, by decide, by decide⟩

/-- C5, amended. In every loader state reached from a new loader by `addFile`,
`addDirectory` and `remove` calls, no two sources agree in both kind and path,
and `m_guards` has at most one entry for a path. -/
theorem sources_unique_by_kind_and_path (st : _QStyleLoader) (h : Reachable st) :
    st.m_items.Nodup ∧
    (∀ i j : Fin st.m_items.length,
      (st.m_items.get i).type = (st.m_items.get j).type →
      (st.m_items.get i).path = (st.m_items.get j).path → i = j) ∧
    (QMap.keys st.m_guards).Nodup := by
  obtain ⟨h1, h2⟩ := _QStyleLoader.reachable_invariant h
  refine ⟨h1, ?_, h2⟩
  intro i j ht hp
  apply (List.Nodup.get_inj_iff h1).1
  cases hi : st.m_items.get i with
  | mk ti pi =>
    cases hj : st.m_items.get j with
    | mk tj pj =>
      rw [hi, hj] at ht hp
      simp only at ht hp
      rw [ht, hp]

/-- Witness for C5: the state of the counterexample is reachable and its two
sources differ in kind. -/
theorem sources_unique_by_kind_and_path_witness :
    Reachable sharedPathLoader ∧ sharedPathLoader.m_items.Nodup :=
  ⟨_QStyleLoader.sharedPathLoader_reachable,
    (sources_unique_by_kind_and_path sharedPathLoader
      _QStyleLoader.sharedPathLoader_reachable).1⟩

/-! ## Removal of a directory source -/

namespace QStyleLoaderDirectoryGuard

theorem destroy_spins (fuel : Nat) :
    (∀ g : QStyleLoaderDirectoryGuard, destroy fuel g = none) ∧
    (∀ deleted : List String, teardownDirs fuel [] deleted = none) ∧
    (∀ (d : QStyleLoaderDirectoryGuard) (rest : List QStyleLoaderDirectoryGuard),
      destroyAll fuel (d :: rest) = none) := by
  induction fuel with
  | zero =>
    refine ⟨fun g => ?_, fun deleted => ?_, fun d rest => ?_⟩
    · cases g; simp [destroy]
    · simp [teardownDirs]
    · simp [destroyAll]
  | succ n ih =>
    obtain ⟨ih1, ih2, ih3⟩ := ih
    refine ⟨fun g => ?_, fun deleted => ?_, fun d rest => ?_⟩
    · cases g with
      | mk path filter files dirs =>
        cases dirs with
        | nil => simp [destroy, ih2]
        | cons kd ds =>
          cases n with
          | zero => simp [destroy, teardownDirs]
          | succ m =>
            have hdirs : teardownDirs (m + 1) (kd :: ds) [] = some (kd :: ds, []) := by
              simp [teardownDirs, QMap.isEmpty]
            rw [destroy, hdirs]
            simp only
            cases teardownFiles (m + 1) files [] with
            | none => rfl
            | some r =>
              simp only [QMap.values, List.map_cons]
              rw [ih3]
    · simp [teardownDirs, QMap.isEmpty, QMap.take, QMap.value, QMap.remove, QMap.firstKey, ih2]
    · simp [destroyAll, ih1]

end QStyleLoaderDirectoryGuard

namespace _QStyleLoader

theorem remove_directory_guard (fuel : Nat) (st : _QStyleLoader) (path : String)
    (g : QStyleLoaderDirectoryGuard)
    (h : QMap.value st.m_guards path = some (QStyleLoaderGuard.dir g)) :
    st.remove fuel path = none := by
  have hc : QMap.contains st.m_guards path = true := by
    rcases hb : QMap.contains st.m_guards path with _ | _
    · rw [QMap.value_eq_none_of_not_contains _ _ hb] at h
      exact absurd h (by simp)
    · rfl
  simp [remove, hc, h, QStyleLoaderGuard.destroy,
    (QStyleLoaderDirectoryGuard.destroy_spins fuel).1 g]

end _QStyleLoader

/-- C6, the code at the failing input. The loader holds the directory source
`d`; the first poll of its guard has found the files `d/b.qss` and `d/c.qss`
(and made a child guard for the entry `.`). A deactivation of that guard would
report both files as removed. The call `remove("d")` does not complete with any
amount of fuel (the destructor loop `while ( m_dirs.isEmpty() )` of the child
guard runs on an empty map), and no `remove` that completes emits a
`fileStyleChanged` or applies a document. -/
theorem remove_directory_source_skips_deactivation :
    QStyleLoaderDirectoryGuard.updateEntries sampleFs 1
        (QStyleLoaderDirectoryGuard.create "d" [])
      = some (polledGuard, [GuardEvent.added "d/b.qss", GuardEvent.added "d/c.qss"]) ∧
    QMap.value removalLoader.m_guards "d" = some (QStyleLoaderGuard.dir polledGuard) ∧
    polledGuard.deactivate = [GuardEvent.removed "d/b.qss", GuardEvent.removed "d/c.qss"] ∧
    (∀ fuel, removalLoader.remove fuel "d" = none) ∧
    (∀ (fuel : Nat) (st st' : _QStyleLoader) (path : String),
      st.remove fuel path = some st' →
        st'.emitted = st.emitted ∧ st'.applied = st.applied) := by
  refine ⟨by rfl, by rfl, by decide, fun fuel => ?_, fun fuel st st' path h => ?_⟩
  · exact _QStyleLoader.remove_directory_guard fuel removalLoader "d" polledGuard rfl
  · exact (_QStyleLoader.remove_some fuel st st' path h).2.2

/-! ## The 2 s timer -/

/-- C7, the code at the failing inputs. The settled loader reloaded at time
0 and has no reload pending: a tick at 2001 ms reloads all the same. The
pending loader has a reload pending: a tick at 2000 ms does not reload and
leaves the flag set. And, for every state, the documents a tick applies and the
reload time it leaves are the same whatever the pending flag was. -/
theorem timer_tick_ignores_pending_flag :
    settledLoader.m_hasReload = false ∧
    settledLoader.applied = ["a.qss"] ∧
    (settledLoader.timerEvent sampleFs 2001).applied = ["a.qss", "a.qss"] ∧
    (settledLoader.timerEvent sampleFs 2001).m_lastReloaded = some 2001 ∧
    pendingLoader.m_hasReload = true ∧
    pendingLoader.applied = ["a.qss"] ∧
    (pendingLoader.timerEvent sampleFs 2000).applied = ["a.qss"] ∧
    (pendingLoader.timerEvent sampleFs 2000).m_hasReload = true ∧
    (∀ (fs : FileSystem) (now : Int) (st : _QStyleLoader) (flag : Bool),
      (_QStyleLoader.timerEvent fs now { st with m_hasReload := flag }).applied
        = (st.timerEvent fs now).applied ∧
      (_QStyleLoader.timerEvent fs now { st with m_hasReload := flag }).m_lastReloaded
        = (st.timerEvent fs now).m_lastReloaded) := by
  refine ⟨by decide, by decide, by decide, by decide, by decide, by decide, by decide,
    by decide, ?_⟩
  intro fs now st flag
  unfold _QStyleLoader.timerEvent _QStyleLoader.reloadAllStylePrivate
    _QStyleLoader.reloadAllStyle
  simp only
  split_ifs <;> exact ⟨rfl, rfl⟩

/-! ## The document of a reload -/

namespace _QStyleLoader

theorem loadFile_eq_fileText (fs : FileSystem) (path : String) :
    loadFile fs path = fileText fs path := by
  unfold loadFile fileText
  cases fs.readAll (fs.fromNativeSeparators path) <;> rfl

theorem loadDirectoryFiles_eq (fs : FileSystem) (l : List String) :
    ∀ result : List String,
      loadDirectoryFiles fs l result
        = result ++ (l.map (fileText fs)).filter (fun t => !t.isEmpty) := by
  induction l with
  | nil => intro result; simp [loadDirectoryFiles]
  | cons f rest ih =>
    intro result
    unfold loadDirectoryFiles
    simp only [loadFile_eq_fileText]
    by_cases h : (fileText fs f).isEmpty = true
    · simp [h, ih]
    · simp [h, ih]

mutual
theorem loadDirectory_eq (fs : FileSystem) (filter : List String) :
    ∀ (path : String) (tree : DirTree),
      loadDirectory fs filter path tree = directoryText fs filter path tree
  | path, .mk files dirs => by
    rw [loadDirectory, directoryText]
    simp only [loadDirectoryFiles_eq, loadDirectoryDirs_eq fs filter path dirs,
      joinNonEmpty, List.nil_append, List.filter_append, List.map_map]
    rfl
theorem loadDirectoryDirs_eq (fs : FileSystem) (filter : List String) :
    ∀ (path : String) (dirs : List (String × DirTree)) (result : List String),
      loadDirectoryDirs fs filter path dirs result
        = result ++ (subdirectoryTexts fs filter path dirs).filter (fun t => !t.isEmpty)
  | _, [], result => by simp [loadDirectoryDirs, subdirectoryTexts]
  | path, (name, sub) :: rest, result => by
    rw [loadDirectoryDirs, subdirectoryTexts]
    by_cases h1 : fs.nameMatch filter name = true
    · by_cases h2 : name = ".."
      · simp [h1, h2, loadDirectoryDirs_eq fs filter path rest]
      · by_cases h3 : name = "."
        · simp [h1, h3, loadDirectoryDirs_eq fs filter path rest]
        · simp only [h1, h2, h3, Bool.not_true, Bool.false_eq_true, if_false, beq_iff_eq,
            Bool.or_self, ne_eq, not_false_eq_true, and_self, if_true,
            loadDirectory_eq fs filter (fs.absoluteFilePath path name) sub,
            loadDirectoryDirs_eq fs filter path rest]
          by_cases h4 : (directoryText fs filter (fs.absoluteFilePath path name) sub).isEmpty
              = true
          · simp [h4, List.filter_cons, h2, h3]
          · simp [h4, List.filter_cons, h2, h3]
    · simp [h1, loadDirectoryDirs_eq fs filter path rest]
end

theorem loadItem_eq_sourceText (fs : FileSystem) (filter : List String) (item : Item) :
    loadItem fs filter item = sourceText fs filter item := by
  obtain ⟨t, p⟩ := item
  cases t
  · simp [loadItem, sourceText, loadFile_eq_fileText]
  · simp [loadItem, sourceText, loadDirectory_eq]

theorem loadItems_eq (fs : FileSystem) (filter : List String) (items : List Item) :
    ∀ acc : List String,
      loadItems fs filter items acc
        = acc ++ (items.map (sourceText fs filter)).filter (fun t => !t.isEmpty) := by
  induction items with
  | nil => intro acc; simp [loadItems]
  | cons item rest ih =>
    intro acc
    unfold loadItems
    simp only [loadItem_eq_sourceText]
    by_cases h : (sourceText fs filter item).isEmpty = true
    · simp [h, ih]
    · simp [h, ih]

theorem reloadAllStyle_applied (fs : FileSystem) (now : Int) (st : _QStyleLoader) :
    (st.reloadAllStyle fs now).applied = st.applied ++ [document fs st.m_filter st.m_items] := by
  simp [reloadAllStyle, loadItems_eq, document, joinNonEmpty]

end _QStyleLoader

/-- C9. For every source sequence and every file system, the document that
`reloadAllStyle` hands to the style engine is the newline-join, in source
order, of the non-empty texts of the sources, the text of a file being its
contents (empty when it cannot be opened) and the text of a directory the
newline-join of the non-empty texts of its matching files followed by those of
its matching subdirectories. A source with an empty text adds nothing to the
document, and when every source has an empty text the document is empty. -/
theorem reload_applies_document (fs : FileSystem) (now : Int) (st : _QStyleLoader) :
    (st.reloadAllStyle fs now).applied
      = st.applied ++ [document fs st.m_filter st.m_items] ∧
    (∀ path, fs.readAll (fs.fromNativeSeparators path) = none →
      sourceText fs st.m_filter ⟨ItemType.File, path⟩ = "") ∧
    (∀ (before after : List Item) (item : Item), sourceText fs st.m_filter item = "" →
      document fs st.m_filter (before ++ item :: after)
        = document fs st.m_filter (before ++ after)) ∧
    ((∀ item ∈ st.m_items, sourceText fs st.m_filter item = "") →
      document fs st.m_filter st.m_items = "") := by
  refine ⟨_QStyleLoader.reloadAllStyle_applied fs now st, ?_, ?_, ?_⟩
  · intro path h
    simp [sourceText, fileText, h]
  · intro before after item h
    have he : ("" : String).isEmpty = true := by decide
    simp [document, joinNonEmpty, List.filter_cons, h, he]
  · intro h
    have he : ("" : String).isEmpty = true := by decide
    have hnil : (st.m_items.map (sourceText fs st.m_filter)).filter (fun t => !t.isEmpty)
        = [] := by
      rw [List.filter_eq_nil_iff]
      intro t ht
      obtain ⟨item, hmem, rfl⟩ := List.mem_map.1 ht
      rw [h item hmem]
      simp [he]
    simp only [document, joinNonEmpty, hnil]
    rfl

/-- Witness for C9: a loader whose only source cannot be read applies the
empty document. -/
theorem reload_applies_document_witness :
    document unreadableFs settledLoader.m_filter settledLoader.m_items = "" :=
  (reload_applies_document unreadableFs 0 settledLoader).2.2.2
    (fun item h => by
      have hitems : settledLoader.m_items = [⟨ItemType.File, "a.qss"⟩] := by decide
      rw [hitems, List.mem_singleton] at h
      subst h
      rfl)

/-! ## Bursts of observer calls -/

namespace _QStyleLoader

theorem reloadAllStylePrivate_within (fs : FileSystem) (now t₀ : Int) (st : _QStyleLoader)
    (hauto : st.m_autoReload = true) (hlast : st.m_lastReloaded = some t₀)
    (hnow : now - t₀ ≤ 2000) :
    reloadAllStylePrivate fs now st = { st with m_hasReload := true } := by
  have hm : ¬ (msecsTo (some t₀) now > 2000) := by
    simp only [msecsTo]; omega
  simp [reloadAllStylePrivate, hauto, hlast, QDateTime.isNull, hm]

theorem reloadAllStylePrivate_past (fs : FileSystem) (now t₀ : Int) (st : _QStyleLoader)
    (hauto : st.m_autoReload = true) (hlast : st.m_lastReloaded = some t₀)
    (hnow : now - t₀ > 2000) :
    reloadAllStylePrivate fs now st = reloadAllStyle fs now st := by
  have hm : msecsTo (some t₀) now > 2000 := by
    simp only [msecsTo]; omega
  simp [reloadAllStylePrivate, hauto, hlast, QDateTime.isNull, hm]

theorem observe_eq_notify (fs : FileSystem) (now : Int) (st : _QStyleLoader) (e : GuardEvent) :
    ∃ path, st.observe fs now e = st.notify fs now path := by
  cases e with
  | added p => exact ⟨p, rfl⟩
  | removed p => exact ⟨p, rfl⟩
  | changed p => exact ⟨p, rfl⟩

theorem arrive_within (t₀ : Int) (w : _QStyleLoader × FileSystem) (a : Arrival)
    (hauto : w.1.m_autoReload = true) (hlast : w.1.m_lastReloaded = some t₀)
    (ha : a.time - t₀ ≤ 2000) :
    (arrive w a).1.m_autoReload = true ∧ (arrive w a).1.m_lastReloaded = some t₀ ∧
    (arrive w a).1.applied = w.1.applied ∧ (arrive w a).1.m_items = w.1.m_items ∧
    (arrive w a).1.m_filter = w.1.m_filter ∧ (arrive w a).1.m_hasReload = true ∧
    (arrive w a).2 = fileSystemAfter w.2 [a] := by
  cases a with
  | event e fs now =>
    obtain ⟨p, hp⟩ := observe_eq_notify fs now w.1 e
    simp only [arrive, hp, notify]
    rw [reloadAllStylePrivate_within fs now t₀
      { w.1 with emitted := w.1.emitted ++ [p] } hauto hlast ha]
    exact ⟨hauto, hlast, rfl, rfl, rfl, rfl, rfl⟩
  | tick now =>
    simp only [arrive, timerEvent]
    rw [reloadAllStylePrivate_within w.2 now t₀ _ hauto hlast ha]
    exact ⟨hauto, hlast, rfl, rfl, rfl, rfl, rfl⟩

theorem fileSystemAfter_append (fs : FileSystem) (a b : List Arrival) :
    fileSystemAfter fs (a ++ b) = fileSystemAfter (fileSystemAfter fs a) b := by
  simp [fileSystemAfter, List.foldl_append]

theorem run_within (t₀ : Int) (burst : List Arrival) :
    ∀ w : _QStyleLoader × FileSystem,
      w.1.m_autoReload = true → w.1.m_lastReloaded = some t₀ →
      (∀ a ∈ burst, a.time - t₀ ≤ 2000) →
      (run w burst).1.m_autoReload = true ∧ (run w burst).1.m_lastReloaded = some t₀ ∧
      (run w burst).1.applied = w.1.applied ∧ (run w burst).1.m_items = w.1.m_items ∧
      (run w burst).1.m_filter = w.1.m_filter ∧
      (burst ≠ [] → (run w burst).1.m_hasReload = true) ∧
      (run w burst).2 = fileSystemAfter w.2 burst := by
  induction burst with
  | nil =>
    intro w hauto hlast _
    exact ⟨hauto, hlast, rfl, rfl, rfl, fun h => absurd rfl h, rfl⟩
  | cons a rest ih =>
    intro w hauto hlast hwin
    obtain ⟨s1, s2, s3, s4, s5, s6, s7⟩ :=
      arrive_within t₀ w a hauto hlast (hwin a (List.mem_cons_self a rest))
    obtain ⟨r1, r2, r3, r4, r5, r6, r7⟩ :=
      ih (arrive w a) s1 s2 (fun b hb => hwin b (List.mem_cons_of_mem a hb))
    have hrun : run w (a :: rest) = run (arrive w a) rest := rfl
    rw [hrun]
    refine ⟨r1, r2, r3.trans s3, r4.trans s4, r5.trans s5, ?_, ?_⟩
    · intro _
      cases rest with
      | nil => exact s6
      | cons b rest' => exact r6 (by simp)
    · rw [r7, s7, ← fileSystemAfter_append]
      rfl

theorem arrive_past (t₀ : Int) (w : _QStyleLoader × FileSystem) (a : Arrival)
    (hauto : w.1.m_autoReload = true) (hlast : w.1.m_lastReloaded = some t₀)
    (ha : a.time - t₀ > 2000) :
    (arrive w a).1.applied
      = w.1.applied ++ [document (fileSystemAfter w.2 [a]) w.1.m_filter w.1.m_items] ∧
    (arrive w a).1.m_hasReload = false ∧
    (arrive w a).1.m_lastReloaded = some a.time := by
  cases a with
  | event e fs now =>
    obtain ⟨p, hp⟩ := observe_eq_notify fs now w.1 e
    simp only [arrive, hp, notify]
    rw [reloadAllStylePrivate_past fs now t₀
      { w.1 with emitted := w.1.emitted ++ [p] } hauto hlast ha, reloadAllStyle_applied]
    exact ⟨rfl, rfl, rfl⟩
  | tick now =>
    simp only [arrive, timerEvent]
    rw [reloadAllStylePrivate_past w.2 now t₀ _ hauto hlast ha, reloadAllStyle_applied]
    exact ⟨rfl, rfl, rfl⟩

theorem run_append (w : _QStyleLoader × FileSystem) (a b : List Arrival) :
    run w (a ++ b) = run (run w a) b := by
  simp [run, List.foldl_append]

end _QStyleLoader

/-- C8, counterexample. The loader reloaded at time 0. Two `changed` calls
arrive at 5000 ms and 5100 ms, the file holding `A` at the first and `B` at the
second, and the 2 s timer ticks at 6000 ms and 8000 ms: two documents are
applied for the two calls, not one, and the first is computed from the state
after the first call. -/
theorem burst_on_settled_loader_reloads_twice :
    settledLoader.applied = ["a.qss"] ∧
    (run (settledLoader, sampleFs) burstArrivals).1.applied = ["a.qss", "A", "B"] ∧
    (run (settledLoader, sampleFs) (burstArrivals.take 2)).1.applied = ["a.qss", "A"] ∧
    (run (settledLoader, sampleFs) burstArrivals).1.applied.length
      ≠ settledLoader.applied.length + 1 := by
  refine ⟨by decide, by decide, by decide, by decide⟩

/-- C8, amended. With auto-reload enabled, let the last reload have happened at
`t₀`. Whatever observer calls and timer ticks arrive no later than 2000 ms
after `t₀`, none of them applies a document (each sets the pending flag), and
the first arrival later than that, a tick or a call, applies exactly one
document, the one of the sources as the file system stands after the last
call. -/
theorem burst_after_reload_coalesces (st : _QStyleLoader) (fs₀ : FileSystem) (t₀ : Int)
    (burst : List Arrival) (next : Arrival)
    (hauto : st.m_autoReload = true) (hlast : st.m_lastReloaded = some t₀)
    (hwin : ∀ a ∈ burst, a.time - t₀ ≤ 2000) (hnext : next.time - t₀ > 2000) :
    (run (st, fs₀) burst).1.applied = st.applied ∧
    (burst ≠ [] → (run (st, fs₀) burst).1.m_hasReload = true) ∧
    (run (st, fs₀) (burst ++ [next])).1.applied
      = st.applied
        ++ [document (fileSystemAfter fs₀ (burst ++ [next])) st.m_filter st.m_items] ∧
    (run (st, fs₀) (burst ++ [next])).1.m_hasReload = false := by
  obtain ⟨r1, r2, r3, r4, r5, r6, r7⟩ :=
    _QStyleLoader.run_within t₀ burst (st, fs₀) hauto hlast hwin
  obtain ⟨p1, p2, _⟩ :=
    _QStyleLoader.arrive_past t₀ (run (st, fs₀) burst) next r1 r2 hnext
  have hrun : run (st, fs₀) (burst ++ [next]) = arrive (run (st, fs₀) burst) next := by
    rw [_QStyleLoader.run_append]; rfl
  refine ⟨r3, r6, ?_, ?_⟩
  · rw [hrun, p1, r3, r4, r5, r7, _QStyleLoader.fileSystemAfter_append]
  · rw [hrun, p2]

/-- Witness for C8: the loader reloaded at time 0; two calls arrive at 500 ms
and 600 ms, and the timer ticks at 2500 ms. -/
theorem burst_after_reload_coalesces_witness :
    (run (settledLoader, sampleFs)
        ([Arrival.event (GuardEvent.changed "a.qss") fsA 500,
          Arrival.event (GuardEvent.changed "a.qss") fsB 600] ++ [Arrival.tick 2500])).1.applied
      = settledLoader.applied
        ++ [document (fileSystemAfter sampleFs
              ([Arrival.event (GuardEvent.changed "a.qss") fsA 500,
                Arrival.event (GuardEvent.changed "a.qss") fsB 600] ++ [Arrival.tick 2500]))
            settledLoader.m_filter settledLoader.m_items] :=
  (burst_after_reload_coalesces settledLoader sampleFs 0
    [Arrival.event (GuardEvent.changed "a.qss") fsA 500,
      Arrival.event (GuardEvent.changed "a.qss") fsB 600]
    (Arrival.tick 2500) (by decide) (by decide) (by decide) (by decide)).2.2.1

/-! ## Reaction of an updater to a property change -/

namespace _QStyleUpdater

theorem indexOfFrom_bound (needle : List Char) (hay : List Char) :
    ∀ i : Nat, indexOfFrom needle hay i = -1 ∨ (i : Int) ≤ indexOfFrom needle hay i := by
  induction hay with
  | nil =>
    intro i
    unfold indexOfFrom
    split_ifs
    · exact Or.inr (le_refl _)
    · exact Or.inl rfl
  | cons c cs ih =>
    intro i
    unfold indexOfFrom
    split_ifs
    · exact Or.inr (le_refl _)
    · rcases ih (i + 1) with h | h
      · exact Or.inl h
      · refine Or.inr ?_
        push_cast at h
        omega

theorem indexOfFrom_eq_start (needle hay : List Char) (i : Nat) :
    indexOfFrom needle hay i = (i : Int) ↔ needle <+: hay := by
  rw [← List.isPrefixOf_iff_prefix]
  cases hay with
  | nil =>
    unfold indexOfFrom
    cases needle with
    | nil => simp
    | cons a as =>
      simp only [List.isEmpty_cons, Bool.false_eq_true, if_false, List.isPrefixOf]
      constructor
      · intro h; omega
      · intro h; exact absurd h (by simp)
  | cons c cs =>
    unfold indexOfFrom
    split_ifs with h
    · simp [h]
    · constructor
      · intro h'
        rcases indexOfFrom_bound needle cs (i + 1) with hb | hb
        · omega
        · push_cast at hb; omega
      · intro h'; exact absurd h' h

theorem indexOf_ne_zero_iff (s needle : String) :
    (indexOf s needle != 0) = true ↔ ¬ needle.data <+: s.data := by
  have h := indexOfFrom_eq_start needle.data s.data 0
  simp only [Nat.cast_zero] at h
  simp only [indexOf, bne_iff_ne, ne_eq, h]

end _QStyleUpdater

/-- C10. For every updater configuration, every hooked widget `N` and every
property name `a`, a property-change event on `N` reloads `N` (unpolish,
polish, one `styleReloaded(N)`) exactly when `a` does not start with
`_q_stylesheet`, and all changes are watched or `a` is in the watched set, and
`N` is the root or child widgets are refreshed and the child filter accepts
`N`, a filter that is not set or that throws counting as accepting; in every
other case the event filter does nothing. -/
theorem property_change_reloads_exactly_when (u : _QStyleUpdater) (N : Nat) (a : String) :
    (reloadCondition u N a →
      u.eventFilter (some N) (QEvent.DynamicPropertyChange a)
        = [UpdaterAction.unpolish N, UpdaterAction.polish N, UpdaterAction.styleReloaded N]) ∧
    (¬ reloadCondition u N a →
      u.eventFilter (some N) (QEvent.DynamicPropertyChange a) = []) ∧
    (∀ w, (u.eventFilter (some N) (QEvent.DynamicPropertyChange a)).count
        (UpdaterAction.styleReloaded w) ≤ 1) := by
  have hidx := _QStyleUpdater.indexOf_ne_zero_iff a "_q_stylesheet"
  have hcheck : u.checkChildWidget N = true ↔ filterAccepts u N := by
    unfold _QStyleUpdater.checkChildWidget filterAccepts
    cases hf : u.m_filter with
    | none => simp
    | some f =>
      cases hfn : f N with
      | none => simp [hfn]
      | some b => cases b <;> simp [hfn]
  have hyes : reloadCondition u N a →
      u.eventFilter (some N) (QEvent.DynamicPropertyChange a)
        = [UpdaterAction.unpolish N, UpdaterAction.polish N, UpdaterAction.styleReloaded N] := by
    rintro ⟨h1, h2, h3⟩
    have h1' := hidx.2 h1
    have h2' : (u.m_allProperties || QSet.contains u.m_properties a) = true := by
      rcases h2 with h2 | h2
      · simp [h2]
      · simp [QSet.contains, h2]
    unfold _QStyleUpdater.eventFilter
    simp only [h1', if_true, h2', Bool.and_true]
    by_cases hroot : u.m_widget = some N
    · simp [hroot, _QStyleUpdater.reloadWidgetStyle]
    · rcases h3 with h3 | ⟨h3, h4⟩
      · exact absurd h3 hroot
      · have hne : (u.m_widget == some N) = false := by simpa using hroot
        simp [hne, h3, hcheck.2 h4, _QStyleUpdater.reloadWidgetStyle]
  have hno : ¬ reloadCondition u N a →
      u.eventFilter (some N) (QEvent.DynamicPropertyChange a) = [] := by
    intro hc
    unfold _QStyleUpdater.eventFilter
    simp only
    by_cases h1 : (_QStyleUpdater.indexOf a "_q_stylesheet" != 0) = true
    · by_cases h2 : (u.m_allProperties || QSet.contains u.m_properties a) = true
      · have h2p : u.m_allProperties = true ∨ a ∈ u.m_properties := by
          simpa [QSet.contains] using h2
        have hroot : ¬ u.m_widget = some N :=
          fun h => hc ⟨hidx.1 h1, h2p, Or.inl h⟩
        have hne : (u.m_widget == some N) = false := by simpa using hroot
        by_cases h3 : u.m_updateChilds = true
        · have h4 : ¬ u.checkChildWidget N = true :=
            fun h => hc ⟨hidx.1 h1, h2p, Or.inr ⟨h3, hcheck.1 h⟩⟩
          simp [h1, h2, hne, h3, h4]
        · simp [h1, h2, hne, h3]
      · simp [h1, h2]
    · simp [h1]
  refine ⟨hyes, hno, fun w => ?_⟩
  by_cases hc : reloadCondition u N a
  · rw [hyes hc]
    have h3 : ([UpdaterAction.unpolish N, UpdaterAction.polish N,
        UpdaterAction.styleReloaded N].count (UpdaterAction.styleReloaded w))
        = [UpdaterAction.styleReloaded N].count (UpdaterAction.styleReloaded w) := by
      simp [List.count_cons]
    rw [h3]
    exact (List.count_le_length _ _).trans (by simp)
  · rw [hno hc]
    simp

/-- Witness for C10, the example of the specification: with the watched set
`theme` and no refresh of child widgets, a change of `theme` on the root
reloads the root. -/
theorem property_change_reloads_exactly_when_witness :
    themeUpdater.eventFilter (some 0) (QEvent.DynamicPropertyChange "theme")
      = [UpdaterAction.unpolish 0, UpdaterAction.polish 0, UpdaterAction.styleReloaded 0] :=
  (property_change_reloads_exactly_when themeUpdater 0 "theme").1
    ⟨by decide, Or.inr (by decide), Or.inl rfl⟩

/-! ## Hooks of an updater under changes of the widget tree -/

theorem getAllWidgetsBelow_eq_findChildren :
    ∀ cs : List QWidget,
      getAllWidgetsBelow cs = ((findChildrenOfList cs).map getAllWidgetsOfWidget).flatten
  | [] => by simp [getAllWidgetsBelow, findChildrenOfList]
  | .mk id children layout :: rest => by
    rw [getAllWidgetsBelow, findChildrenOfList]
    simp [getAllWidgetsBelow_eq_findChildren children,
      getAllWidgetsBelow_eq_findChildren rest]

/-- C11, the code at the failing inputs. A `setWidget` hooks exactly the
widgets reachable from the root. When the widget 1, which already has the child
2, becomes a child of the hooked root 0, the `ChildAdded` event hooks 1 only:
2 is reachable and not hooked. When 1 is taken away from the root again, the
`ChildRemoved` event unhooks 1 only: 2 stays hooked and is not reachable, and a
`setWidget( nullptr )` after that leaves 2 hooked under a null root. -/
theorem child_events_miss_descendants :
    (Attachment.setWidget liveApart Attachment.create (some 0)).hooked = [0] ∧
    (Attachment.setWidget liveApart Attachment.create (some 0)).updater.getAllWidgets liveApart
      = [0] ∧
    ((Attachment.setWidget liveApart Attachment.create (some 0)).deliver 0
        (QEvent.ChildAdded (some 1))).hooked = [0, 1] ∧
    ((Attachment.setWidget liveApart Attachment.create (some 0)).deliver 0
        (QEvent.ChildAdded (some 1))).updater.getAllWidgets liveJoined = [0, 1, 2] ∧
    (Attachment.setWidget liveJoined Attachment.create (some 0)).hooked = [0, 1, 2] ∧
    ((Attachment.setWidget liveJoined Attachment.create (some 0)).deliver 0
        (QEvent.ChildRemoved (some 1))).hooked = [0, 2] ∧
    ((Attachment.setWidget liveJoined Attachment.create (some 0)).deliver 0
        (QEvent.ChildRemoved (some 1))).updater.getAllWidgets liveApart = [0] ∧
    (Attachment.setWidget liveApart
        ((Attachment.setWidget liveJoined Attachment.create (some 0)).deliver 0
          (QEvent.ChildRemoved (some 1))) none).hooked = [2] ∧
    (Attachment.setWidget liveApart
        ((Attachment.setWidget liveJoined Attachment.create (some 0)).deliver 0
          (QEvent.ChildRemoved (some 1))) none).updater.m_widget = none := by
  refine ⟨by decide, by decide, by decide, by decide, by decide, by decide, by decide,
    by decide, by decide⟩

/-! ## Registration of updaters -/

namespace _QStyleLoader

theorem find_updater_none (st : _QStyleLoader) (w : Option Nat)
    (h : ∀ u ∈ st.m_updaters, u.widget ≠ w) :
    st.m_updaters.find? (fun updater => updater.widget == w) = none := by
  rw [List.find?_eq_none]
  intro u hu
  simpa using h u hu

theorem find_updater_some (st : _QStyleLoader) (w : Option Nat)
    (h : ∃ u ∈ st.m_updaters, u.widget = w) :
    ∃ u, st.m_updaters.find? (fun updater => updater.widget == w) = some u ∧
      u ∈ st.m_updaters ∧ u.widget = w := by
  obtain ⟨u₀, hu₀, hw₀⟩ := h
  rcases hf : st.m_updaters.find? (fun updater => updater.widget == w) with _ | u
  · rw [List.find?_eq_none] at hf
    exact absurd (by simpa using hw₀) (hf u₀ hu₀)
  · refine ⟨u, hf, List.mem_of_find?_eq_some hf, ?_⟩
    have := List.find?_some hf
    simpa using this

theorem insertUpdater_again (a₁ a₂ : Nat) (st : _QStyleLoader) (w : Option Nat) :
    (st.insertUpdater a₁ w).2.insertUpdater a₂ w = st.insertUpdater a₁ w := by
  rcases hf : st.m_updaters.find? (fun updater => updater.widget == w) with _ | u
  · have hnew : (QStyleUpdater.create a₁ w).widget = w := rfl
    have h1 : st.insertUpdater a₁ w
        = (QStyleUpdater.create a₁ w,
            { st with m_updaters := st.m_updaters ++ [QStyleUpdater.create a₁ w] }) := by
      simp [insertUpdater, hf]
    rw [h1]
    simp [insertUpdater, List.find?_append, hf, hnew]
  · have h1 : st.insertUpdater a₁ w = (u, st) := by simp [insertUpdater, hf]
    rw [h1]
    simp [insertUpdater, hf]

end _QStyleLoader

/-- C12. For every loader state and every root `w`: when some updater of the
sequence has the root `w`, `insertUpdater(w)` returns an updater of the
sequence with that root and leaves the loader as it is; when none has, it
appends exactly one new updater with the root `w` and returns it. A second call
with the same root returns the same updater and leaves the loader as the first
call left it, the sequence grows by at most one, and `addUpdater` does the same
as `insertUpdater`. -/
theorem insert_updater_returns_existing (a₁ a₂ : Nat) (st : _QStyleLoader) (w : Option Nat) :
    ((∃ u ∈ st.m_updaters, u.widget = w) →
      (st.insertUpdater a₁ w).2 = st ∧
      (st.insertUpdater a₁ w).1 ∈ st.m_updaters ∧
      (st.insertUpdater a₁ w).1.widget = w) ∧
    ((∀ u ∈ st.m_updaters, u.widget ≠ w) →
      (st.insertUpdater a₁ w).1 = QStyleUpdater.create a₁ w ∧
      (st.insertUpdater a₁ w).2
        = { st with m_updaters := st.m_updaters ++ [QStyleUpdater.create a₁ w] } ∧
      (QStyleUpdater.create a₁ w).widget = w ∧
      (QStyleUpdater.create a₁ w).address = a₁) ∧
    ((st.insertUpdater a₁ w).2.insertUpdater a₂ w).1 = (st.insertUpdater a₁ w).1 ∧
    ((st.insertUpdater a₁ w).2.insertUpdater a₂ w).2 = (st.insertUpdater a₁ w).2 ∧
    (st.insertUpdater a₁ w).2.m_updaters.length ≤ st.m_updaters.length + 1 ∧
    st.addUpdater a₁ w = st.insertUpdater a₁ w := by
  refine ⟨?_, ?_, ?_, ?_, ?_, rfl⟩
  · intro h
    obtain ⟨u, hf, hmem, hw⟩ := _QStyleLoader.find_updater_some st w h
    have h1 : st.insertUpdater a₁ w = (u, st) := by simp [_QStyleLoader.insertUpdater, hf]
    rw [h1]
    exact ⟨rfl, hmem, hw⟩
  · intro h
    have hf := _QStyleLoader.find_updater_none st w h
    have h1 : st.insertUpdater a₁ w
        = (QStyleUpdater.create a₁ w,
            { st with m_updaters := st.m_updaters ++ [QStyleUpdater.create a₁ w] }) := by
      simp [_QStyleLoader.insertUpdater, hf]
    rw [h1]
    exact ⟨rfl, rfl, rfl, rfl⟩
  · rw [_QStyleLoader.insertUpdater_again]
  · rw [_QStyleLoader.insertUpdater_again]
  · rcases hf : st.m_updaters.find? (fun updater => updater.widget == w) with _ | u
    · simp [_QStyleLoader.insertUpdater, hf]
    · simp [_QStyleLoader.insertUpdater, hf]

/-- Witness for C12: the first `insertUpdater` for the root 0 on a loader
without updaters appends the new updater. -/
theorem insert_updater_returns_existing_witness :
    (settledLoader.insertUpdater 7 (some 0)).1 = QStyleUpdater.create 7 (some 0) :=
  ((insert_updater_returns_existing 7 8 settledLoader (some 0)).2.1
    (fun u hu => by
      have hnone : settledLoader.m_updaters = [] := rfl
      rw [hnone] at hu
      exact absurd hu (List.not_mem_nil u))).1

/-! ## The entries `.` and `..` in a reconciliation -/

namespace QStyleLoaderDirectoryGuard

theorem listedDirs_loop_mem (fs : FileSystem) (dir : String) (names : List String) :
    ∀ (dirs : List String) (p : String),
      p ∈ names.foldl
          (fun dirs name =>
            if name == ".." then dirs else QSet.insert dirs (fs.absoluteFilePath dir name))
          dirs
        ↔ p ∈ dirs ∨ ∃ name ∈ names, name ≠ ".." ∧ p = fs.absoluteFilePath dir name := by
  induction names with
  | nil => intro dirs p; simp
  | cons n rest ih =>
    intro dirs p
    rw [List.foldl_cons, ih]
    by_cases hn : n = ".."
    · subst hn
      simp
    · simp only [beq_iff_eq, hn, if_false, QSet.mem_insert, List.mem_cons, exists_eq_or_imp,
        ne_eq, not_false_eq_true, true_and]
      tauto

theorem mem_listedDirs (fs : FileSystem) (g : QStyleLoaderDirectoryGuard) (p : String) :
    p ∈ listedDirs fs g ↔
      ∃ name ∈ fs.entryList (fs.fromNativeSeparators g.m_path),
        name ≠ ".." ∧ p = fs.absoluteFilePath (fs.fromNativeSeparators g.m_path) name := by
  unfold listedDirs
  rw [listedDirs_loop_mem]
  simp

end QStyleLoaderDirectoryGuard

/-- C13, the code at the failing input. The directory `d` lists the entries
`.` and `..`. The set `dirs` of a reconciliation holds `d/.`, and the first
pass of a new guard makes a child directory guard for `d/.`. In general the
path of the entry `.` is in the set whenever the entry is listed, while the
entry `..` is left out: every path of the set comes from a listed name other
than `..`. -/
theorem dot_entry_becomes_child_directory :
    sampleFs.entryList "d" = [".", ".."] ∧
    QStyleLoaderDirectoryGuard.listedDirs sampleFs (QStyleLoaderDirectoryGuard.create "d" [])
      = ["d/."] ∧
    (∃ r, QStyleLoaderDirectoryGuard.updateEntries sampleFs 1
          (QStyleLoaderDirectoryGuard.create "d" []) = some r ∧
        QMap.keys r.1.m_dirs = ["d/."]) ∧
    (∀ (fs : FileSystem) (g : QStyleLoaderDirectoryGuard),
      "." ∈ fs.entryList (fs.fromNativeSeparators g.m_path) →
        fs.absoluteFilePath (fs.fromNativeSeparators g.m_path) "."
          ∈ QStyleLoaderDirectoryGuard.listedDirs fs g) ∧
    (∀ (fs : FileSystem) (g : QStyleLoaderDirectoryGuard) (p : String),
      p ∈ QStyleLoaderDirectoryGuard.listedDirs fs g →
        ∃ name ∈ fs.entryList (fs.fromNativeSeparators g.m_path),
          name ≠ ".." ∧ p = fs.absoluteFilePath (fs.fromNativeSeparators g.m_path) name) := by
  refine ⟨by decide, by decide, ?_, ?_, ?_⟩
  · exact ⟨(polledGuard, [GuardEvent.added "d/b.qss", GuardEvent.added "d/c.qss"]),
      by rfl, by decide⟩
  · intro fs g h
    rw [QStyleLoaderDirectoryGuard.mem_listedDirs]
    exact ⟨".", h, by decide, rfl⟩
  · intro fs g p h
    exact (QStyleLoaderDirectoryGuard.mem_listedDirs fs g p).1 h

/-! ## The loops of the destructor -/

namespace QStyleLoaderDirectoryGuard

theorem teardownFiles_empty (fuel : Nat) :
    ∀ deleted : List String, teardownFiles fuel [] deleted = none := by
  induction fuel with
  | zero => intro deleted; rfl
  | succ n ih =>
    intro deleted
    simp [teardownFiles, QMap.isEmpty, QMap.take, QMap.value, QMap.remove, QMap.firstKey, ih]

theorem teardownFiles_nonempty (fuel : Nat) (kv : String × QStyleLoaderFileGuard)
    (m : List (String × QStyleLoaderFileGuard)) (deleted : List String) :
    teardownFiles (fuel + 1) (kv :: m) deleted = some (kv :: m, deleted) := by
  simp [teardownFiles, QMap.isEmpty]

theorem teardownDirs_nonempty (fuel : Nat) (kv : String × QStyleLoaderDirectoryGuard)
    (m : List (String × QStyleLoaderDirectoryGuard)) (deleted : List String) :
    teardownDirs (fuel + 1) (kv :: m) deleted = some (kv :: m, deleted) := by
  simp [teardownDirs, QMap.isEmpty]

end QStyleLoaderDirectoryGuard

/-- C14, the code at the failing inputs. On an empty child map either loop of
the destructor is still running whatever fuel it is given, so the destruction
of a guard whose two maps are empty, and of any directory guard, does not
complete. On a child map that is not empty either loop ends at its first test,
with the map as it was and no child deleted. -/
theorem destructor_loops_inverted :
    (∀ (fuel : Nat) (deleted : List String),
      QStyleLoaderDirectoryGuard.teardownDirs fuel [] deleted = none) ∧
    (∀ (fuel : Nat) (deleted : List String),
      QStyleLoaderDirectoryGuard.teardownFiles fuel [] deleted = none) ∧
    (∀ fuel : Nat,
      QStyleLoaderDirectoryGuard.destroy fuel (QStyleLoaderDirectoryGuard.create "d" [])
        = none) ∧
    (∀ (fuel : Nat) (g : QStyleLoaderDirectoryGuard),
      QStyleLoaderDirectoryGuard.destroy fuel g = none) ∧
    (∀ fuel : Nat,
      QStyleLoaderDirectoryGuard.teardownDirs (fuel + 1) polledGuard.m_dirs []
        = some (polledGuard.m_dirs, [])) ∧
    (∀ fuel : Nat,
      QStyleLoaderDirectoryGuard.teardownFiles (fuel + 1) polledGuard.m_files []
        = some (polledGuard.m_files, [])) ∧
    polledGuard.m_dirs ≠ [] ∧ polledGuard.m_files ≠ [] := by
  refine ⟨fun fuel deleted => ?_, fun fuel deleted => ?_, fun fuel => ?_, fun fuel g => ?_,
    fun fuel => ?_, fun fuel => ?_,
    fun h => absurd (congrArg List.length h) (by decide),
    fun h => absurd (congrArg List.length h) (by decide)⟩
  · exact (QStyleLoaderDirectoryGuard.destroy_spins fuel).2.1 deleted
  · exact QStyleLoaderDirectoryGuard.teardownFiles_empty fuel deleted
  · exact (QStyleLoaderDirectoryGuard.destroy_spins fuel).1 _
  · exact (QStyleLoaderDirectoryGuard.destroy_spins fuel).1 g
  · exact QStyleLoaderDirectoryGuard.teardownDirs_nonempty fuel _ _ _
  · exact QStyleLoaderDirectoryGuard.teardownFiles_nonempty fuel _ _ _

end QStyleLoader
